import Mathlib

/-!
A shallow embedding of the `power_plants` repository: the tabular data model,
the `DataCleaner` pipeline (`src/util/data_cleaner.py`) and the
`PowerPlantDataHandler` query operations (`src/services/data_handler.py`),
together with theorems settling the specification claims about them.

Tables are modelled column-wise, as pandas stores them: a column is either a
float64 column (cells are `Option ℚ`, `none` standing for `NaN`) or an object
column (cells are `Option String`, `none` standing for a missing value).
Rational numbers stand in for the finite doubles the dataset holds; the
special values produced by division are modelled explicitly where the code
can produce them (`PFloat`).
-/

/- The rational operations of the standard library are shipped irreducible;
restore reducibility so that concrete tables can be evaluated inside proofs
(`decide` / `rfl`) — the kernel accepts these reductions as-is. -/
set_option allowUnsafeReducibility true in
attribute [semireducible] Rat.add Rat.mul Rat.inv Rat.normalize Rat.divInt
  Rat.sub Rat.neg Rat.div Rat.blt

namespace PowerPlants

instance {ε α : Type} [DecidableEq ε] [DecidableEq α] : DecidableEq (Except ε α) :=
  fun a b =>
    match a, b with
    | .error e, .error e' =>
      if h : e = e' then .isTrue (by rw [h]) else .isFalse (by intro hc; cases hc; exact h rfl)
    | .ok x, .ok y =>
      if h : x = y then .isTrue (by rw [h]) else .isFalse (by intro hc; cases hc; exact h rfl)
    | .error _, .ok _ => .isFalse (by intro hc; cases hc)
    | .ok _, .error _ => .isFalse (by intro hc; cases hc)

/-- A single cell: a float64 cell (`none` = `NaN`) or an object cell
(`none` = missing). -/
inductive Cell where
  | num (v : Option ℚ)
  | str (v : Option String)
deriving DecidableEq, Repr

/-- A column of a pandas DataFrame together with its dtype: a float64/int64
column or an object (string) column. -/
inductive ColData where
  | nums (v : List (Option ℚ))
  | strs (v : List (Option String))
deriving DecidableEq, Repr

/-- A DataFrame: named columns in order.  (pandas keeps all columns the same
length; that rectangularity is the separate predicate `DF.ok`.) -/
structure DF where
  cols : List (String × ColData)
deriving DecidableEq, Repr

/-- Effectful list map over `Except`, stopping at the first error — the way a
Python `for` loop propagates the first exception. -/
def mapE {ε α β : Type} (f : α → Except ε β) : List α → Except ε (List β)
  | [] => .ok []
  | a :: l =>
    match f a with
    | .error e => .error e
    | .ok b =>
      match mapE f l with
      | .error e => .error e
      | .ok bs => .ok (b :: bs)

/-- Effectful list map over `Option`: `none` as soon as one element fails. -/
def mapO {α β : Type} (f : α → Option β) : List α → Option (List β)
  | [] => some []
  | a :: l =>
    match f a, mapO f l with
    | some b, some bs => some (b :: bs)
    | _, _ => none

/-! ### A model of Python `float(s)`

`float` accepts an optionally signed decimal literal with an optional
exponent, surrounded by whitespace, and the spelling `nan` (giving `NaN`).
`some none` is a `NaN` result, `some (some q)` a finite result, `none` a
`ValueError`.  Infinite spellings (`inf`) and underscore digit separators lie
outside the rational model and are folded into the failure case. -/

/-- Numeric value of a digit string. -/
def digitsVal (l : List Char) : ℕ :=
  l.foldl (fun a c => 10 * a + (c.toNat - 48)) 0

def allDigits (l : List Char) : Bool := l.all Char.isDigit

/-- Mantissa part: `digits`, `digits.digits`, `digits.` or `.digits`. -/
def mantVal (l : List Char) : Option ℚ :=
  match l.span Char.isDigit with
  | (ip, []) => if ip.isEmpty then none else some (digitsVal ip : ℚ)
  | (ip, c :: l2) =>
    if c = '.' ∧ allDigits l2 ∧ (ip ≠ [] ∨ l2 ≠ []) then
      some ((digitsVal ip : ℚ) + (digitsVal l2 : ℚ) / 10 ^ l2.length)
    else none

/-- Exponent part: optionally signed nonempty digit string. -/
def expVal : List Char → Option ℤ
  | '+' :: l => if l ≠ [] ∧ allDigits l then some (digitsVal l : ℤ) else none
  | '-' :: l => if l ≠ [] ∧ allDigits l then some (-(digitsVal l : ℤ)) else none
  | l => if l ≠ [] ∧ allDigits l then some (digitsVal l : ℤ) else none

/-- Split at the first `e`/`E`, if any. -/
def splitExp (l : List Char) : List Char × Option (List Char) :=
  match l.span (fun c => !(c = 'e' || c = 'E')) with
  | (m, []) => (m, none)
  | (m, _ :: ex) => (m, some ex)

def parseDecCore (l : List Char) : Option ℚ :=
  match splitExp l with
  | (m, none) => mantVal m
  | (m, some ex) =>
    match mantVal m, expVal ex with
    | some mv, some e => some (mv * 10 ^ e)
    | _, _ => none

def trimWs (l : List Char) : List Char :=
  ((l.dropWhile Char.isWhitespace).reverse.dropWhile Char.isWhitespace).reverse

/-- Python `float(s)`: `some none` is `NaN`, `some (some q)` finite,
`none` a `ValueError`. -/
def pyFloat? (s : String) : Option (Option ℚ) :=
  let l := trimWs s.toList
  match l with
  | '+' :: r =>
    if r.map Char.toLower = "nan".toList then some none
    else (parseDecCore r).map (fun q => some q)
  | '-' :: r =>
    if r.map Char.toLower = "nan".toList then some none
    else (parseDecCore r).map (fun q => some (-q))
  | r =>
    if r.map Char.toLower = "nan".toList then some none
    else (parseDecCore r).map (fun q => some q)

/-! ### String helpers used by the cleaner -/

/-- `str.rstrip('%')`: remove every trailing `%`. -/
def rstripPercentL (l : List Char) : List Char :=
  (l.reverse.dropWhile (· = '%')).reverse

/-- `.replace(',', '', regex=True)`: remove every comma. -/
def stripCommas (l : List Char) : List Char := l.filter (· ≠ ',')

/-- Lexicographic comparison of character lists by code point — the order
Python uses on strings (and the order of Lean's `String` instances). -/
def charListLE : List Char → List Char → Bool
  | [], _ => true
  | _ :: _, [] => false
  | a :: as, b :: bs =>
    if a < b then true else if b < a then false else charListLE as bs

/-- String comparison by code point. -/
def strLE (a b : String) : Bool := charListLE a.toList b.toList

/-- Substring test on character lists. -/
def containsSubL (pat : List Char) : List Char → Bool
  | [] => pat.isEmpty
  | c :: rest => pat.isPrefixOf (c :: rest) || containsSubL pat rest

/-- `'percent' in col.lower()`: the test selecting percentage columns. -/
def isPercentName (c : String) : Bool :=
  containsSubL "percent".toList (c.toList.map Char.toLower)

/-- Scanner for Python `s.replace(old, new)`: the counter holds how many
characters of an already-matched occurrence remain to be consumed. -/
def pyReplaceAux (pat rep : List Char) : List Char → ℕ → List Char
  | [], _ => []
  | _ :: rest, k + 1 => pyReplaceAux pat rep rest k
  | c :: rest, 0 =>
    if pat.isPrefixOf (c :: rest) then
      rep ++ pyReplaceAux pat rep rest (pat.length - 1)
    else
      c :: pyReplaceAux pat rep rest 0

/-- Python `s.replace(old, new)`: replace every non-overlapping occurrence,
scanning left to right. -/
def pyReplaceL (pat rep : List Char) (l : List Char) : List Char :=
  pyReplaceAux pat rep l 0

def pyReplace (s pat rep : String) : String :=
  String.mk (pyReplaceL pat.toList rep.toList s.toList)

/-! ### Columns and frames -/

namespace ColData

def length : ColData → ℕ
  | nums v => v.length
  | strs v => v.length

/-- The cell at row `i` (out of range gives a missing cell; the operations
only look inside the column's range). -/
def cell : ColData → ℕ → Cell
  | nums v, i => .num (v.getD i none)
  | strs v, i => .str (v.getD i none)

/-- `iloc[1:]`: drop the first row of the column. -/
def dropFirst : ColData → ColData
  | nums v => nums v.tail
  | strs v => strs v.tail

/-- Keep the rows at the given indices, in the given order. -/
def select : ColData → List ℕ → ColData
  | nums v, idx => nums (idx.map (fun i => v.getD i none))
  | strs v, idx => strs (idx.map (fun i => v.getD i none))

/-- `_fill_missing_values`, per column: float64 missing cells become `0`,
object missing cells become `"Unknown"`.  (The source's intervening
`dropna()` runs after `fillna` left nothing missing, so it keeps every row.) -/
def fill : ColData → ColData
  | nums v => nums (v.map (fun x => some (x.getD 0)))
  | strs v => strs (v.map (fun x => some (x.getD "Unknown")))

end ColData

namespace DF

def columns (t : DF) : List String := t.cols.map Prod.fst

/-- Row count, read off the first column as pandas' row index length. -/
def nRows (t : DF) : ℕ :=
  match t.cols with
  | [] => 0
  | c :: _ => c.2.length

/-- Rectangularity: every column has the row-index length.  pandas maintains
this for every DataFrame. -/
def ok (t : DF) : Prop := ∀ c ∈ t.cols, c.2.length = t.nRows

instance (t : DF) : Decidable t.ok := by
  unfold ok; infer_instance

/-- `df[c]`: the first column named `c`, if any. -/
def col? (t : DF) (c : String) : Option ColData :=
  (t.cols.find? (fun p => p.1 == c)).map Prod.snd

/-- The row at index `i`, as the mapping from column names to cells that
`iterrows` / `to_dict(orient="records")` produce. -/
def row (t : DF) (i : ℕ) : List (String × Cell) :=
  t.cols.map (fun c => (c.1, c.2.cell i))

def cellAt (t : DF) (c : String) (i : ℕ) : Cell :=
  match t.col? c with
  | some d => d.cell i
  | none => .str none

def numAt (t : DF) (c : String) (i : ℕ) : Option ℚ :=
  match t.col? c with
  | some (.nums v) => v.getD i none
  | _ => none

/-- `pd.api.types.is_numeric_dtype(df[c])`. -/
def isNumCol (t : DF) (c : String) : Bool :=
  match t.col? c with
  | some (.nums _) => true
  | _ => false

def mapCols (t : DF) (f : ColData → ColData) : DF :=
  ⟨t.cols.map (fun c => (c.1, f c.2))⟩

def selectRows (t : DF) (idx : List ℕ) : DF := t.mapCols (·.select idx)

end DF

/-! ### The DataCleaner pipeline (`src/util/data_cleaner.py`) -/

/-- `_remove_metadata_row`: `self.data = self.data.iloc[1:]` plus a reindex. -/
def remove_metadata_row (t : DF) : DF := t.mapCols ColData.dropFirst

/-- One percentage cell:
`cell -> astype(str) -> .str.rstrip('%') -> astype('float') -> / 100`.
A missing object cell prints as `"nan"`, which `float` turns back into `NaN`.
`none` is the `ValueError` that `astype('float')` raises on an unparseable
cell. -/
def pctCell (x : Option String) : Option (Option ℚ) :=
  (pyFloat? (String.mk (rstripPercentL
      (match x with | none => "nan".toList | some s => s.toList)))).map
    (Option.map (· / 100))

/-- `_convert_percentages`, per column.  A float64 column round-trips through
`astype(str)`/`astype(float)` unchanged and is then divided by 100. -/
def pctConvert : ColData → Option ColData
  | .nums v => some (.nums (v.map (Option.map (· / 100))))
  | .strs v => (mapO pctCell v).map .nums

/-- Fill `NaN` with `0` on an already converted (float64) percentage column —
line 55 of the cleaner (`fillna(0)` on the percentage columns). -/
def pctFillZero : ColData → ColData
  | .nums v => .nums (v.map (fun x => some (x.getD 0)))
  | .strs v => .strs v

/-- The conversion (line 54) applied to one column of the frame: percentage
columns are converted — an unparseable cell raises `ValueError` — and other
columns pass through. -/
def pctColStep (c : String × ColData) : Except String (String × ColData) :=
  if isPercentName c.1 then
    match pctConvert c.2 with
    | some d => .ok (c.1, d)
    | none => .error ("could not convert string to float in column " ++ c.1)
  else .ok c

/-- The `fillna(0)` (line 55) applied to one column of the frame: it touches
only the percentage columns. -/
def pctFillStep (c : String × ColData) : String × ColData :=
  if isPercentName c.1 then (c.1, pctFillZero c.2) else c

/-- `_convert_percentages`: convert each column whose name contains
`percent` (case-insensitively); the first unparseable cell raises
(`astype('float')` raises `ValueError`), which aborts cleaning; then fill
missing percentage cells with `0`. -/
def convert_percentages (t : DF) : Except String DF := do
  let cols ← mapE pctColStep t.cols
  pure ⟨cols.map pctFillStep⟩

/-- One cell of `_convert_to_numerical`: commas stripped, then `float`.
A missing object cell is `NaN`/`None`, which numpy converts to `NaN`. -/
def toNumCell (x : Option String) : Option (Option ℚ) :=
  match x with
  | none => some none
  | some s => pyFloat? (String.mk (stripCommas s.toList))

/-- `_convert_to_numerical`: `col.replace(',', '', regex=True).astype(float)`
under a bare `except` returning the column unchanged.  A float64 column
converts to itself; an object column converts only if every cell parses,
else it is left untouched (column-level all-or-nothing). -/
def convert_to_numerical : ColData → ColData
  | .nums v => .nums v
  | .strs v =>
    match mapO toNumCell v with
    | some w => .nums w
    | none => .strs v

/-- `_convert_columns_to_numerical`: `self.data.apply(self._convert_to_numerical)`. -/
def convert_columns_to_numerical (t : DF) : DF := t.mapCols convert_to_numerical

/-- `_fill_missing_values`. -/
def fill_missing_values (t : DF) : DF := t.mapCols ColData.fill

/-- Indices of the rows `drop_duplicates` keeps: the rows with no equal row
strictly before them. -/
def keepIdx (t : DF) : List ℕ :=
  (List.range t.nRows).filter (fun i => decide (∀ j < i, t.row j ≠ t.row i))

/-- `_remove_duplicates`: `drop_duplicates`, keeping first occurrences in
order. -/
def remove_duplicates (t : DF) : DF := t.selectRows (keepIdx t)

/-- `clean_data`: the five steps in order.  An `Except.error` is the
exception a step raises (only the percentage step can). -/
def clean_data (t : DF) : Except String DF := do
  let t2 ← convert_percentages (remove_metadata_row t)
  pure (remove_duplicates (fill_missing_values (convert_columns_to_numerical t2)))

/-! ### Float special values

Division can leave the finite range: `x / 0` is `±inf` (or `NaN` for `0/0`)
and anything involving `NaN` is `NaN`.  `PFloat` models the values the
summary's `percentage` column can hold; `psum` is pandas `sum` with its
default `skipna=True` (`NaN` summands are skipped, infinities are not). -/

inductive PFloat where
  | finite (q : ℚ)
  | nan
  | inf
  | neginf
deriving DecidableEq, Repr

/-- Float division of two possibly-`NaN` cells. -/
def pdiv : Option ℚ → Option ℚ → PFloat
  | some a, some b =>
    if b = 0 then (if 0 < a then .inf else if a < 0 then .neginf else .nan)
    else .finite (a / b)
  | _, _ => .nan

/-- Multiplication by the positive constant `100`. -/
def pmul100 : PFloat → PFloat
  | .finite q => .finite (q * 100)
  | x => x

def padd : PFloat → PFloat → PFloat
  | .finite a, .finite b => .finite (a + b)
  | .nan, _ => .nan
  | _, .nan => .nan
  | .inf, .neginf => .nan
  | .neginf, .inf => .nan
  | .inf, _ => .inf
  | _, .inf => .inf
  | .neginf, _ => .neginf
  | _, .neginf => .neginf

/-- pandas `Series.sum()` (with `skipna=True`). -/
def psum (l : List PFloat) : PFloat :=
  (l.filter (fun x => x != .nan)).foldl padd (.finite 0)

/-! ### The data handler (`src/services/data_handler.py`) -/

/-- A raised exception: the two typed failures of
`exceptions.exceptions`, plus `typeErr` for the unhandled exceptions
(`KeyError`, `TypeError`, pydantic `ValidationError`) the handler can let
escape on malformed tables. -/
inductive PPErr where
  | badMetric (msg : String)
  | dataNotFound (msg : String)
  | typeErr (msg : String)
deriving DecidableEq, Repr

/-- `models.power_plant.TopPowerPlant` (`metric_value` is a float and may be
`NaN`, which pydantic accepts). -/
structure TopPowerPlant where
  name : String
  state : String
  metric : String
  metric_value : Option ℚ
deriving DecidableEq, Repr

/-- `models.power_plant.StateSummaryItem`. -/
structure StateSummaryItem where
  plant_state_abbreviation : String
  metric : String
  absolute_value : ℚ
  percentage : PFloat
deriving DecidableEq, Repr

/-- The descending order `sort_values(by=metric, ascending=False)` sorts by:
larger values first, `NaN` last (`na_position='last'`). -/
def descLE (a b : Option ℚ) : Bool :=
  match a, b with
  | some x, some y => decide (y ≤ x)
  | some _, none => true
  | none, some _ => false
  | none, none => true

/-- `sort_values(by=metric, ascending=False)` as a permutation of row
indices: some deterministic enumeration of the row indices in descending
metric order with `NaN` last.  The call uses pandas' default
`kind='quicksort'`, which is **not stable**, so the relative order of rows
with equal metric values is implementation-defined (an internal of numpy's
introsort, not of this program).  An executable model must still pick one
concrete admissible order; this one uses a stable insertion sort, but no
theorem below relies on where tied rows land — only on properties
(membership, length, prefix agreement between calls on the same data) that
hold for every deterministic descending order, as they do for the
program. -/
def sortIdxDesc (v : List (Option ℚ)) (n : ℕ) : List ℕ :=
  List.insertionSort (fun i j => descLE (v.getD i none) (v.getD j none) = true)
    (List.range n)

/-- `df.head(k)` for an arbitrary integer `k`: the first `k` rows, and for
negative `k` all rows but the last `|k|`. -/
def headInt {α : Type} (k : ℤ) (l : List α) : List α :=
  if 0 ≤ k then l.take k.toNat else l.take (l.length - (-k).toNat)

/-- Build one `TopPowerPlant` from row `i`:
`row["Plant name"]` / `row["Plant state abbreviation"]` must be present
string cells, else the row constructor raises (`KeyError` from the row
lookup or `ValidationError` from pydantic's `str` fields). -/
def projPlant (t : DF) (metric : String) (i : ℕ) : Except PPErr TopPowerPlant :=
  match t.cellAt "Plant name" i, t.cellAt "Plant state abbreviation" i with
  | .str (some nm), .str (some st) => .ok ⟨nm, st, metric, t.numAt metric i⟩
  | _, _ => .error (.typeErr "plant name or state abbreviation is not a string")

/-- `get_top_n_plants`. -/
def get_top_n_plants (t : DF) (top_number : ℤ) (metric : String) :
    Except PPErr (List TopPowerPlant) :=
  if metric ∉ t.columns then
    .error (.badMetric s!"The specified metric '{metric}' does not exist.")
  else
    match t.col? metric with
    | some (.nums v) =>
      mapE (projPlant t metric) (headInt top_number (sortIdxDesc v t.nRows))
    | _ =>
      .error (.badMetric (s!"The specified metric '{metric}' is not numerical "
        ++ "and cannot be used for sorting. Please choose a numerical column."))

/-- `plant_metric.replace("Plant", "State")`. -/
def stateMetricName (plant_metric : String) : String :=
  pyReplace plant_metric "Plant" "State"

/-- One row of
`plant_data.merge(state_data[['State abbreviation', state_metric]],
how='left', left_on='Plant state abbreviation', right_on='State abbreviation')`:
the plant row's group key and plant-metric value, and the matched state row's
state-metric value (`none` = `NaN` when no state row matches). -/
structure MRow where
  key : Cell
  pval : Option ℚ
  sval : Option ℚ
deriving DecidableEq, Repr

/-- A numeric (non-missing) group key — `groupby` sorting such keys against
strings, or pydantic validating them against a `str` field, raises. -/
def numKeyMRow (r : MRow) : Bool :=
  match r.key with
  | .num (some _) => true
  | _ => false

/-- The group key of a merged row as `groupby` sees it: present string keys
group, missing keys are dropped (`dropna=True`). -/
def keyOfMRow (r : MRow) : Option String :=
  match r.key with
  | .str (some s) => some s
  | _ => none

/-- The merged rows produced from plant row `i`: one per matching state row
(pandas matches missing keys to missing keys), or a single row with a
missing state value when nothing matches. -/
def mergeRow (plantT stateT : DF) (plant_metric state_metric : String)
    (i : ℕ) : List MRow :=
  if ((List.range stateT.nRows).filter
      (fun j => stateT.cellAt "State abbreviation" j ==
        plantT.cellAt "Plant state abbreviation" i)).isEmpty then
    [MRow.mk (plantT.cellAt "Plant state abbreviation" i)
      (plantT.numAt plant_metric i) none]
  else
    ((List.range stateT.nRows).filter
      (fun j => stateT.cellAt "State abbreviation" j ==
        plantT.cellAt "Plant state abbreviation" i)).map
      (fun j => MRow.mk (plantT.cellAt "Plant state abbreviation" i)
        (plantT.numAt plant_metric i) (stateT.numAt state_metric j))

/-- The left merge: every plant row in order, expanded by `mergeRow`. -/
def mergedRows (plantT stateT : DF) (plant_metric state_metric : String) :
    List MRow :=
  ((List.range plantT.nRows).map
    (mergeRow plantT stateT plant_metric state_metric)).flatten

/-- `get_plant_metric_summary_by_state`.  After the four metric checks the
code can still raise on structurally degenerate tables: a missing join-key
column (`KeyError`), a column-name collision that the merge resolves by
`_x`/`_y` suffixing so that a later lookup raises (`KeyError`), or numeric
group keys (`TypeError` while sorting mixed keys, or pydantic
`ValidationError` on the `str` field).  Group keys are sorted
(`groupby(..., sort=True)`) and missing keys dropped (`dropna=True`);
per group the plant metric and the percentage column are summed with
`skipna=True`. -/
def get_plant_metric_summary_by_state (plantT stateT : DF)
    (plant_metric : String) : Except PPErr (List StateSummaryItem) :=
  let state_metric := stateMetricName plant_metric
  if plant_metric ∉ plantT.columns then
    .error (.badMetric s!"The specified plant metric '{plant_metric}' does not exist.")
  else if state_metric ∉ stateT.columns then
    .error (.badMetric s!"The specified state metric '{state_metric}' does not exist.")
  else if !plantT.isNumCol plant_metric then
    .error (.badMetric (s!"The specified plant metric '{plant_metric}' is not numerical "
      ++ "and cannot be used for this summary. Please choose a numerical column."))
  else if !stateT.isNumCol state_metric then
    .error (.badMetric
      s!"Sorry. We do not have state level numerical data for this metric {plant_metric}.")
  else if "Plant state abbreviation" ∉ plantT.columns ∨
      "State abbreviation" ∉ stateT.columns then
    .error (.typeErr "KeyError: merge key column missing")
  else if plant_metric = "State abbreviation" ∨ plant_metric = state_metric ∨
      state_metric ∈ plantT.columns ∨ state_metric = "Plant state abbreviation" ∨
      state_metric = "State abbreviation" then
    .error (.typeErr "KeyError: column made ambiguous by merge suffixing")
  else
    let ms := mergedRows plantT stateT plant_metric state_metric
    if ms.any numKeyMRow then
      .error (.typeErr "numeric state abbreviation group key")
    else
      let keys := (ms.filterMap keyOfMRow).dedup
      let skeys := List.insertionSort (fun a b : String => strLE a b = true) keys
      .ok (skeys.map (fun s =>
        let grp := ms.filter (fun r => r.key == Cell.str (some s))
        ⟨s, plant_metric, (grp.filterMap (fun r => r.pval)).sum,
         psum (grp.map (fun r => pmul100 (pdiv r.pval r.sval)))⟩))

/-- `get_data_by_state`. -/
def get_data_by_state (t : DF) (state : String) :
    Except PPErr (List (List (String × Cell))) :=
  if "Plant state abbreviation" ∉ t.columns then
    .error (.typeErr "KeyError: Plant state abbreviation")
  else
    let hits := (List.range t.nRows).filter
      (fun i => t.cellAt "Plant state abbreviation" i == Cell.str (some state))
    if hits.isEmpty then
      .error (.dataNotFound s!"No data found for the state '{state}'")
    else
      .ok (hits.map t.row)

/-! ### Specification-side definitions

These definitions follow the words of the specification claims, to be
compared against the code path above. -/

/-- Replace only the first occurrence of `pat` — the reading
"replacing the substring in its first/only occurrence" of the claim about
the derived state metric name, to be compared with `pyReplace`, which
replaces every occurrence. -/
def replaceFirstL (pat rep : List Char) : List Char → List Char
  | [] => []
  | c :: rest =>
    if pat.isPrefixOf (c :: rest) then rep ++ (c :: rest).drop pat.length
    else c :: replaceFirstL pat rep rest

def replaceFirstSpec (s pat rep : String) : String :=
  String.mk (replaceFirstL pat.toList rep.toList s.toList)

/-- The state-level metric value belonging to a state abbreviation: the
value paired with the first matching abbreviation of the state table. -/
def stateLookup (sv : List String) (mv : List ℚ) (s : String) : ℚ :=
  (((sv.zip mv).find? (fun p => p.1 == s)).map Prod.snd).getD 0

/-! ### Missing-cell predicates -/

namespace ColData

/-- No cell of the column is missing. -/
def filled : ColData → Bool
  | nums v => v.all Option.isSome
  | strs v => v.all Option.isSome

/-- No cell of a float64 column is missing (object columns are not
constrained). -/
def numFilled : ColData → Bool
  | nums v => v.all Option.isSome
  | strs _ => true

end ColData

/-- No numeric column of the table holds a missing cell. -/
def DF.numFilled (t : DF) : Bool := t.cols.all (fun c => c.2.numFilled)

/-! ### Concrete tables used by the witnesses and counterexamples -/

def C1exT : DF := ⟨[("meta percent", .strs [some "0%", some "abc"])]⟩

def C2plantT : DF :=
  ⟨[("Plant name", .strs [some "P1", some "P2", some "P3"]),
    ("Plant state abbreviation", .strs [some "CA", some "TX", some "CA"]),
    ("Plant gen", .nums [some 100, some 40, some 300])]⟩

def C2stateT : DF :=
  ⟨[("State abbreviation", .strs [some "CA", some "TX"]),
    ("State gen", .nums [some 1000, some 200])]⟩

def C5plantT : DF := ⟨[("PlantPlant gen", .nums [some 1])]⟩

def C5stateT : DF :=
  ⟨[("StatePlant gen", .nums []), ("State abbreviation", .strs [])]⟩

def C6T : DF :=
  ⟨[("Plant name", .strs [some "A", some "B"]),
    ("Plant state abbreviation", .strs [some "CA", some "TX"]),
    ("g", .nums [some 1, some 2])]⟩

def C7T : DF :=
  ⟨[("Plant name", .strs [some "A"]),
    ("Plant state abbreviation", .strs [some "CA"]),
    ("g", .nums [some 1]),
    ("tag", .strs [some "x"])]⟩

def C8badT : DF := ⟨[("A", .strs [])]⟩

def C8badU : DF := ⟨[("A", .nums [])]⟩

def C8okU : DF :=
  ⟨[("A", .nums [some 15, some 0]),
    ("b percent", .nums [some (1 / 10), some 0])]⟩

def C8okT : DF :=
  ⟨[("A", .strs [some "hdr", some "1,5", none]),
    ("b percent", .strs [some "h", some "10%", none])]⟩

def C9T : DF :=
  ⟨[("A", .nums [some 1, none, some 1]),
    ("B", .strs [some "x", none, some "x"])]⟩

def C10T : DF :=
  ⟨[("Plant name", .strs [some "A", some "B", some "C"]),
    ("Plant state abbreviation", .strs [some "CA", some "CA", some "TX"]),
    ("g", .nums [some 5, some 9, some 7])]⟩

def C10L : List TopPowerPlant :=
  [⟨"B", "CA", "g", some 9⟩, ⟨"C", "TX", "g", some 7⟩, ⟨"A", "CA", "g", some 5⟩]

/-! ## Helper lemmas -/

theorem mapE_ok_map {ε α β : Type} (f : α → Except ε β) (g : α → β) :
    ∀ (l : List α), (∀ x ∈ l, f x = .ok (g x)) → mapE f l = .ok (l.map g) := by
  intro l
  induction l with
  | nil => intro _; rfl
  | cons a t ih =>
    intro h
    rw [mapE, h a (List.mem_cons_self a t),
      ih (fun x hx => h x (List.mem_cons_of_mem a hx)), List.map_cons]

theorem mapE_error_of_mem {ε α β : Type} (f : α → Except ε β) {l : List α}
    {x : α} (hx : x ∈ l) {e : ε} (he : f x = .error e) :
    ∃ e', mapE f l = .error e' := by
  induction l with
  | nil => cases hx
  | cons a t ih =>
    rw [mapE]
    rcases List.mem_cons.mp hx with rfl | hmem
    · rw [he]; exact ⟨e, rfl⟩
    · cases hfa : f a with
      | error e2 => exact ⟨e2, rfl⟩
      | ok b =>
        obtain ⟨e', h'⟩ := ih hmem
        rw [h']
        exact ⟨e', rfl⟩

theorem mapE_ok_forall₂ {ε α β : Type} (f : α → Except ε β) :
    ∀ {l : List α} {L : List β}, mapE f l = .ok L →
      List.Forall₂ (fun a b => f a = .ok b) l L := by
  intro l
  induction l with
  | nil =>
    intro L h
    rw [mapE] at h
    cases h
    exact List.Forall₂.nil
  | cons a t ih =>
    intro L h
    rw [mapE] at h
    cases hfa : f a with
    | error e => rw [hfa] at h; cases h
    | ok b =>
      rw [hfa] at h
      cases hmt : mapE f t with
      | error e => rw [hmt] at h; cases h
      | ok bs =>
        rw [hmt] at h
        cases h
        exact List.Forall₂.cons hfa (ih hmt)

theorem mapE_ok_take {ε α β : Type} (f : α → Except ε β) :
    ∀ (l : List α) (L : List β), mapE f l = .ok L →
      ∀ m : ℕ, mapE f (l.take m) = .ok (L.take m) := by
  intro l
  induction l with
  | nil =>
    intro L h m
    rw [mapE] at h
    cases h
    simp [mapE]
  | cons a t ih =>
    intro L h m
    rw [mapE] at h
    cases hfa : f a with
    | error e => rw [hfa] at h; cases h
    | ok b =>
      rw [hfa] at h
      cases hmt : mapE f t with
      | error e => rw [hmt] at h; cases h
      | ok bs =>
        rw [hmt] at h
        cases h
        cases m with
        | zero => simp [mapE]
        | succ m' =>
          rw [List.take_succ_cons, List.take_succ_cons, mapE, hfa, ih bs hmt m']

theorem mapO_some_map {α β : Type} (f : α → Option β) (g : α → β) :
    ∀ (l : List α), (∀ x ∈ l, f x = some (g x)) → mapO f l = some (l.map g) := by
  intro l
  induction l with
  | nil => intro _; rfl
  | cons a t ih =>
    intro h
    rw [mapO, h a (List.mem_cons_self a t),
      ih (fun x hx => h x (List.mem_cons_of_mem a hx)), List.map_cons]

theorem mapO_none_of_mem {α β : Type} (f : α → Option β) {l : List α}
    {x : α} (hx : x ∈ l) (hfx : f x = none) : mapO f l = none := by
  induction l with
  | nil => cases hx
  | cons a t ih =>
    rw [mapO]
    rcases List.mem_cons.mp hx with rfl | hmem
    · rw [hfx]
    · rw [ih hmem]
      cases f a <;> rfl

theorem mapO_some_eq {α β : Type} (f : α → Option β) (d : β) :
    ∀ {l : List α} {w : List β}, mapO f l = some w →
      w = l.map (fun x => (f x).getD d) ∧ ∀ x ∈ l, (f x).isSome = true := by
  intro l
  induction l with
  | nil =>
    intro w h
    rw [mapO] at h
    cases h
    exact ⟨rfl, by intro x hx; cases hx⟩
  | cons a t ih =>
    intro w h
    rw [mapO] at h
    cases hfa : f a with
    | none => rw [hfa] at h; cases h
    | some b =>
      rw [hfa] at h
      cases hmt : mapO f t with
      | none => rw [hmt] at h; cases h
      | some bs =>
        rw [hmt] at h
        cases h
        obtain ⟨hw, hall⟩ := ih hmt
        refine ⟨by rw [List.map_cons, hfa, ← hw]; rfl, ?_⟩
        intro x hx
        rcases List.mem_cons.mp hx with rfl | hmem
        · rw [hfa]; rfl
        · exact hall x hmem

theorem mapO_length {α β : Type} (f : α → Option β) :
    ∀ {l : List α} {w : List β}, mapO f l = some w → w.length = l.length := by
  intro l
  induction l with
  | nil =>
    intro w h
    rw [mapO] at h
    cases h
    rfl
  | cons a t ih =>
    intro w h
    rw [mapO] at h
    cases hfa : f a with
    | none => rw [hfa] at h; cases h
    | some b =>
      rw [hfa] at h
      cases hmt : mapO f t with
      | none => rw [hmt] at h; cases h
      | some bs =>
        rw [hmt] at h
        cases h
        rw [List.length_cons, List.length_cons, ih hmt]

theorem foldl_padd_finite : ∀ (l : List ℚ) (a : ℚ),
    (l.map PFloat.finite).foldl padd (.finite a) = .finite (a + l.sum) := by
  intro l
  induction l with
  | nil => intro a; simp [padd]
  | cons q t ih =>
    intro a
    rw [List.map_cons, List.foldl_cons]
    show (t.map PFloat.finite).foldl padd (.finite (a + q)) = _
    rw [ih (a + q), List.sum_cons]
    ring_nf

theorem psum_map_finite (l : List ℚ) :
    psum (l.map PFloat.finite) = .finite l.sum := by
  unfold psum
  rw [List.filter_eq_self.mpr, foldl_padd_finite, zero_add]
  intro a ha
  obtain ⟨q, -, rfl⟩ := List.mem_map.mp ha
  rfl

/-! ### Structural lemmas about columns and frames -/

theorem ColData.length_dropFirst (c : ColData) : c.dropFirst.length = c.length - 1 := by
  cases c <;> simp [ColData.dropFirst, ColData.length]

theorem ColData.length_select (c : ColData) (idx : List ℕ) :
    (c.select idx).length = idx.length := by
  cases c <;> simp [ColData.select, ColData.length]

theorem ColData.length_fill (c : ColData) : c.fill.length = c.length := by
  cases c <;> simp [ColData.fill, ColData.length]

theorem length_pctFillZero (c : ColData) : (pctFillZero c).length = c.length := by
  cases c <;> simp [pctFillZero, ColData.length]

theorem length_pctConvert {c d : ColData} (h : pctConvert c = some d) :
    d.length = c.length := by
  cases c with
  | nums v =>
    rw [pctConvert] at h
    cases h
    simp [ColData.length]
  | strs v =>
    rw [pctConvert] at h
    cases hm : mapO pctCell v with
    | none => rw [hm] at h; cases h
    | some w =>
      rw [hm] at h
      cases h
      simpa [ColData.length] using mapO_length pctCell hm

theorem length_convert_to_numerical (c : ColData) :
    (convert_to_numerical c).length = c.length := by
  cases c with
  | nums v => rfl
  | strs v =>
    rw [convert_to_numerical]
    cases hm : mapO toNumCell v with
    | none => rfl
    | some w => simpa [ColData.length] using mapO_length toNumCell hm

theorem DF.columns_mapCols (t : DF) (f : ColData → ColData) :
    (t.mapCols f).columns = t.columns := by
  simp [DF.mapCols, DF.columns]

theorem DF.nRows_mapCols (t : DF) (f : ColData → ColData)
    (h : ∀ c, (f c).length = c.length) : (t.mapCols f).nRows = t.nRows := by
  rcases t with ⟨cols⟩
  cases cols with
  | nil => rfl
  | cons c rest => simp [DF.mapCols, DF.nRows, h]

theorem DF.ok_mapCols {t : DF} {f : ColData → ColData}
    (h : ∀ c, (f c).length = c.length) (ht : t.ok) : (t.mapCols f).ok := by
  intro c' hc'
  obtain ⟨c, hc, rfl⟩ := List.mem_map.mp hc'
  rw [DF.nRows_mapCols t f h]
  simpa [h] using ht c hc

theorem DF.col?_mapCols (t : DF) (f : ColData → ColData) (c : String) :
    (t.mapCols f).col? c = (t.col? c).map f := by
  rcases t with ⟨cols⟩
  simp only [DF.mapCols, DF.col?, List.find?_map]
  have hp : ((fun p : String × ColData => p.1 == c) ∘
      fun p : String × ColData => (p.1, f p.2)) =
      (fun p : String × ColData => p.1 == c) := rfl
  rw [hp]
  cases List.find? (fun p : String × ColData => p.1 == c) cols <;> rfl

theorem DF.mem_columns_of_col? {t : DF} {c : String} {d : ColData}
    (h : t.col? c = some d) : c ∈ t.columns := by
  rw [DF.col?] at h
  cases hf : t.cols.find? (fun p => p.1 == c) with
  | none => rw [hf] at h; cases h
  | some p =>
    have hp := List.find?_some hf
    have hmem := List.mem_of_find?_eq_some hf
    exact List.mem_map.mpr ⟨p, hmem, by simpa using hp⟩

theorem DF.col?_isSome_of_mem {t : DF} {c : String} (h : c ∈ t.columns) :
    ∃ d, t.col? c = some d := by
  obtain ⟨p, hp, rfl⟩ := List.mem_map.mp h
  rw [DF.col?]
  cases hf : t.cols.find? (fun q => q.1 == p.1) with
  | none =>
    have := List.find?_eq_none.mp hf p hp
    simp at this
  | some q => exact ⟨q.2, rfl⟩

theorem ColData.cell_select (c : ColData) (idx : List ℕ) (k : ℕ)
    (hk : k < idx.length) : (c.select idx).cell k = c.cell (idx.get ⟨k, hk⟩) := by
  cases c with
  | nums v =>
    simp only [ColData.select, ColData.cell]
    rw [List.getD_eq_getElem (idx.map fun i => v.getD i none) none (by simpa using hk),
      List.getElem_map]
    rfl
  | strs v =>
    simp only [ColData.select, ColData.cell]
    rw [List.getD_eq_getElem (idx.map fun i => v.getD i none) none (by simpa using hk),
      List.getElem_map]
    rfl

theorem DF.row_mapCols (t : DF) (f : ColData → ColData) (i : ℕ) :
    (t.mapCols f).row i = t.cols.map (fun c => (c.1, (f c.2).cell i)) := by
  simp [DF.mapCols, DF.row]

theorem DF.row_selectRows (t : DF) (idx : List ℕ) (k : ℕ) (hk : k < idx.length) :
    (t.selectRows idx).row k = t.row (idx.get ⟨k, hk⟩) := by
  rw [DF.selectRows, DF.row_mapCols, DF.row]
  exact List.map_congr_left (fun p _ => by rw [ColData.cell_select p.2 idx k hk])

theorem DF.map_fst_row (t : DF) (i : ℕ) : (t.row i).map Prod.fst = t.columns := by
  simp [DF.row, DF.columns]

theorem keepIdx_sublist (t : DF) : (keepIdx t).Sublist (List.range t.nRows) :=
  List.filter_sublist _

theorem mem_keepIdx {t : DF} {i : ℕ} :
    i ∈ keepIdx t ↔ i < t.nRows ∧ ∀ j < i, t.row j ≠ t.row i := by
  simp [keepIdx, List.mem_filter, List.mem_range]

theorem keepIdx_pairwise (t : DF) : (keepIdx t).Pairwise (· < ·) :=
  (List.pairwise_lt_range t.nRows).sublist (keepIdx_sublist t)

theorem ColData.filled_fill (c : ColData) : c.fill.filled = true := by
  cases c <;> simp [ColData.fill, ColData.filled, List.all_eq_true]

theorem ColData.fill_of_filled {c : ColData} (h : c.filled = true) : c.fill = c := by
  cases c with
  | nums v =>
    simp only [ColData.filled, List.all_eq_true] at h
    simp only [ColData.fill, ColData.nums.injEq]
    conv_rhs => rw [← List.map_id v]
    exact List.map_congr_left (fun x hx => by
      cases x with
      | none => exact absurd (h none hx) (by simp)
      | some q => rfl)
  | strs v =>
    simp only [ColData.filled, List.all_eq_true] at h
    simp only [ColData.fill, ColData.strs.injEq]
    conv_rhs => rw [← List.map_id v]
    exact List.map_congr_left (fun x hx => by
      cases x with
      | none => exact absurd (h none hx) (by simp)
      | some q => rfl)

theorem ColData.filled_select {c : ColData} (hc : c.filled = true) {idx : List ℕ}
    (hidx : ∀ i ∈ idx, i < c.length) : (c.select idx).filled = true := by
  cases c with
  | nums v =>
    simp only [ColData.filled, List.all_eq_true] at hc
    simp only [ColData.select, ColData.filled, List.all_eq_true]
    intro x hx
    obtain ⟨i, hi, rfl⟩ := List.mem_map.mp hx
    have hlt : i < v.length := hidx i hi
    rw [List.getD_eq_getElem _ _ hlt]
    exact hc _ (List.getElem_mem hlt)
  | strs v =>
    simp only [ColData.filled, List.all_eq_true] at hc
    simp only [ColData.select, ColData.filled, List.all_eq_true]
    intro x hx
    obtain ⟨i, hi, rfl⟩ := List.mem_map.mp hx
    have hlt : i < v.length := hidx i hi
    rw [List.getD_eq_getElem _ _ hlt]
    exact hc _ (List.getElem_mem hlt)

theorem ColData.numFilled_of_filled {c : ColData} (h : c.filled = true) :
    c.numFilled = true := by
  cases c
  · exact h
  · rfl

theorem map_getD_range {α : Type} (v : List α) (d : α) :
    (List.range v.length).map (fun i => v.getD i d) = v := by
  apply List.ext_getElem (by simp)
  intro n h1 h2
  rw [List.getElem_map, List.getElem_range, List.getD_eq_getElem v d h2]

theorem ColData.select_range (c : ColData) :
    c.select (List.range c.length) = c := by
  cases c with
  | nums v =>
    simp only [ColData.select, ColData.length, ColData.nums.injEq]
    exact map_getD_range v none
  | strs v =>
    simp only [ColData.select, ColData.length, ColData.strs.injEq]
    exact map_getD_range v none

theorem DF.ok_selectRows (t : DF) (idx : List ℕ) : (t.selectRows idx).ok := by
  rcases t with ⟨cols⟩
  cases cols with
  | nil => intro c' hc'; cases hc'
  | cons c rest =>
    intro c' hc'
    obtain ⟨p, -, rfl⟩ := List.mem_map.mp hc'
    simp [DF.selectRows, DF.mapCols, DF.nRows, ColData.length_select]

theorem DF.selectRows_range (t : DF) (hok : t.ok) :
    t.selectRows (List.range t.nRows) = t := by
  rcases t with ⟨cols⟩
  simp only [DF.selectRows, DF.mapCols, DF.mk.injEq]
  conv_rhs => rw [← List.map_id cols]
  apply List.map_congr_left
  intro c hc
  have hlen : c.2.length = DF.nRows ⟨cols⟩ := hok c hc
  rw [← hlen, ColData.select_range]
  rfl

theorem nRows_remove_duplicates (t : DF) :
    (remove_duplicates t).nRows = (keepIdx t).length := by
  rcases t with ⟨cols⟩
  cases cols with
  | nil =>
    show DF.nRows ⟨[]⟩ = (keepIdx ⟨[]⟩).length
    simp [keepIdx, DF.nRows]
  | cons c rest =>
    simp [remove_duplicates, DF.selectRows, DF.mapCols, DF.nRows, ColData.length_select]

/-! ### Shape preservation through the pipeline -/

theorem forall₂_map_right {α β γ : Type} {R : α → β → Prop} {S : α → γ → Prop}
    (g : β → γ) (h : ∀ a b, R a b → S a (g b)) :
    ∀ {l : List α} {l' : List β}, List.Forall₂ R l l' → List.Forall₂ S l (l'.map g) := by
  intro l l' hf
  induction hf with
  | nil => exact List.Forall₂.nil
  | cons hab _ ih => exact List.Forall₂.cons (h _ _ hab) ih

theorem pctColStep_shape {a b : String × ColData} (h : pctColStep a = .ok b) :
    (pctFillStep b).1 = a.1 ∧ (pctFillStep b).2.length = a.2.length := by
  rw [pctColStep] at h
  by_cases hp : isPercentName a.1 = true
  · rw [if_pos hp] at h
    cases hc : pctConvert a.2 with
    | none => rw [hc] at h; cases h
    | some d =>
      rw [hc] at h
      cases h
      rw [pctFillStep, if_pos hp]
      exact ⟨rfl, by rw [length_pctFillZero]; exact length_pctConvert hc⟩
  · rw [if_neg hp] at h
    cases h
    rw [pctFillStep, if_neg hp]
    exact ⟨rfl, rfl⟩

theorem convert_percentages_shape {t u : DF} (h : convert_percentages t = .ok u) :
    List.Forall₂ (fun c c' : String × ColData => c'.1 = c.1 ∧ c'.2.length = c.2.length)
      t.cols u.cols := by
  rw [convert_percentages] at h
  cases hm : mapE pctColStep t.cols with
  | error e =>
    rw [hm] at h
    cases h
  | ok cols' =>
    rw [hm] at h
    cases h
    exact forall₂_map_right pctFillStep (fun a b hab => pctColStep_shape hab)
      (mapE_ok_forall₂ pctColStep hm)

theorem mem_left_of_forall₂ {α β : Type} {R : α → β → Prop} :
    ∀ {l : List α} {l' : List β}, List.Forall₂ R l l' → ∀ a ∈ l, ∃ b ∈ l', R a b := by
  intro l l' hf
  induction hf with
  | nil => intro a ha; cases ha
  | cons hab _ ih =>
    intro a ha
    rcases List.mem_cons.mp ha with rfl | hmem
    · exact ⟨_, List.mem_cons_self _ _, hab⟩
    · obtain ⟨b, hb, hbr⟩ := ih a hmem
      exact ⟨b, List.mem_cons_of_mem _ hb, hbr⟩

theorem mem_right_of_forall₂ {α β : Type} {R : α → β → Prop} :
    ∀ {l : List α} {l' : List β}, List.Forall₂ R l l' → ∀ b ∈ l', ∃ a ∈ l, R a b := by
  intro l l' hf
  induction hf with
  | nil => intro b hb; cases hb
  | cons hab _ ih =>
    intro b hb
    rcases List.mem_cons.mp hb with rfl | hmem
    · exact ⟨_, List.mem_cons_self _ _, hab⟩
    · obtain ⟨a, ha, har⟩ := ih b hmem
      exact ⟨a, List.mem_cons_of_mem _ ha, har⟩

theorem map_fst_eq_of_shape {l l' : List (String × ColData)}
    (h : List.Forall₂ (fun c c' => c'.1 = c.1 ∧ c'.2.length = c.2.length) l l') :
    l'.map Prod.fst = l.map Prod.fst := by
  induction h with
  | nil => rfl
  | cons hab _ ih => simp only [List.map_cons, ih, hab.1]

theorem columns_eq_of_shape {t u : DF}
    (h : List.Forall₂ (fun c c' : String × ColData =>
      c'.1 = c.1 ∧ c'.2.length = c.2.length) t.cols u.cols) :
    u.columns = t.columns :=
  map_fst_eq_of_shape h

theorem nRows_eq_of_shape {t u : DF}
    (h : List.Forall₂ (fun c c' : String × ColData =>
      c'.1 = c.1 ∧ c'.2.length = c.2.length) t.cols u.cols) :
    u.nRows = t.nRows := by
  rcases t with ⟨tc⟩
  rcases u with ⟨uc⟩
  change List.Forall₂ _ tc uc at h
  cases h with
  | nil => rfl
  | cons hab _ => exact hab.2

theorem ok_of_shape {t u : DF}
    (h : List.Forall₂ (fun c c' : String × ColData =>
      c'.1 = c.1 ∧ c'.2.length = c.2.length) t.cols u.cols)
    (ht : t.ok) : u.ok := by
  intro c' hc'
  obtain ⟨c, hc, hr⟩ := mem_right_of_forall₂ h c' hc'
  rw [nRows_eq_of_shape h, hr.2]
  exact ht c hc

/-! ### The `remove_metadata_row` step -/

theorem remove_metadata_row_columns (t : DF) :
    (remove_metadata_row t).columns = t.columns :=
  DF.columns_mapCols t ColData.dropFirst

theorem remove_metadata_row_nRows (t : DF) :
    (remove_metadata_row t).nRows = t.nRows - 1 := by
  rcases t with ⟨cols⟩
  cases cols with
  | nil => rfl
  | cons c rest =>
    simp [remove_metadata_row, DF.mapCols, DF.nRows, ColData.length_dropFirst]

theorem remove_metadata_row_ok {t : DF} (ht : t.ok) : (remove_metadata_row t).ok := by
  intro c' hc'
  obtain ⟨c, hc, rfl⟩ := List.mem_map.mp hc'
  rw [remove_metadata_row_nRows, ColData.length_dropFirst, ht c hc]

theorem columns_remove_duplicates (t : DF) :
    (remove_duplicates t).columns = t.columns :=
  DF.columns_mapCols t _

theorem columns_fill_missing_values (t : DF) :
    (fill_missing_values t).columns = t.columns :=
  DF.columns_mapCols t _

theorem columns_convert_columns_to_numerical (t : DF) :
    (convert_columns_to_numerical t).columns = t.columns :=
  DF.columns_mapCols t _

/-! ## Claim C1 -/

/-- **C1** (as stated, refuted): a percentage column holding the cell
`"abc"` makes the cleaning pipeline raise (`astype('float')` raises
`ValueError`) instead of degrading the cell to `0.0`, so `clean_data` does
raise for malformed cell content. -/
theorem C1_counterexample :
    clean_data C1exT =
      .error "could not convert string to float in column meta percent" := by
  decide

/-- **C1** (amended): in the percentage-conversion step each cell is read as
a string, trailing `%` stripped, parsed and divided by `100`, and a missing
cell becomes `0.0` — but a present cell whose stripped text does not parse
as a float makes `clean_data` raise instead of producing `0.0`. -/
theorem C1_percentage_step (t : DF) (c : String) (v : List (Option String))
    (hpct : isPercentName c = true)
    (hmem : (c, ColData.strs v) ∈ (remove_metadata_row t).cols) :
    ((∃ s : String, some s ∈ v ∧
        pyFloat? (String.mk (rstripPercentL s.toList)) = none) →
      ∃ e, clean_data t = .error e) ∧
    (∀ u, convert_percentages (remove_metadata_row t) = .ok u →
      (c, ColData.nums (v.map (fun x => some (((pctCell x).getD none).getD 0))))
        ∈ u.cols) := by
  constructor
  · rintro ⟨s, hsv, hsparse⟩
    have hcell : pctCell (some s) = none := by
      rw [pctCell]
      rw [hsparse]
      rfl
    have hconv : pctConvert (ColData.strs v) = none := by
      rw [pctConvert, mapO_none_of_mem pctCell hsv hcell]
      rfl
    have hstep : pctColStep (c, ColData.strs v) =
        .error ("could not convert string to float in column " ++ c) := by
      rw [pctColStep, if_pos hpct, hconv]
    obtain ⟨e2, hE2⟩ := mapE_error_of_mem pctColStep hmem hstep
    refine ⟨e2, ?_⟩
    have hcp : convert_percentages (remove_metadata_row t) = .error e2 := by
      rw [convert_percentages, hE2]
      rfl
    rw [clean_data, hcp]
    rfl
  · intro u hu
    rw [convert_percentages] at hu
    cases hm : mapE pctColStep (remove_metadata_row t).cols with
    | error e => rw [hm] at hu; cases hu
    | ok cols' =>
      rw [hm] at hu
      cases hu
      obtain ⟨b, hbmem, hbR⟩ :=
        mem_left_of_forall₂ (mapE_ok_forall₂ pctColStep hm) _ hmem
      rw [pctColStep, if_pos hpct] at hbR
      cases hpc : pctConvert (ColData.strs v) with
      | none => rw [hpc] at hbR; cases hbR
      | some d =>
        rw [hpc] at hbR
        cases hbR
        rw [pctConvert] at hpc
        cases hmo : mapO pctCell v with
        | none => rw [hmo] at hpc; cases hpc
        | some w =>
          rw [hmo] at hpc
          cases hpc
          obtain ⟨hw, -⟩ := mapO_some_eq pctCell none hmo
          have hfs : pctFillStep (c, ColData.nums w) =
              (c, ColData.nums (v.map
                (fun x => some (((pctCell x).getD none).getD 0)))) := by
            rw [pctFillStep, if_pos hpct]
            show (c, pctFillZero (ColData.nums w)) = _
            rw [pctFillZero, hw, List.map_map]
            rfl
          rw [← hfs]
          exact List.mem_map_of_mem pctFillStep hbmem

/-- Witness for C1: the cleaning pipeline raises on the concrete table whose
percentage column holds `"abc"`. -/
theorem C1_witness : ∃ e, clean_data C1exT = .error e :=
  (C1_percentage_step C1exT "meta percent" [some "abc"] (by decide) (by decide)).1
    ⟨"abc", by decide, by decide⟩

/-! ## Claim C4 -/

/-- **C4**: the numeric conversion of a column is all-or-nothing: if every
cell parses after comma stripping the whole column becomes a float column of
the parsed values, and if any single cell fails to parse the column is
returned completely unchanged. -/
theorem C4_all_or_nothing (v : List (Option String)) :
    ((∀ x ∈ v, (toNumCell x).isSome = true) →
      convert_to_numerical (ColData.strs v) =
        ColData.nums (v.map (fun x => (toNumCell x).getD none))) ∧
    ((∃ x ∈ v, toNumCell x = none) →
      convert_to_numerical (ColData.strs v) = ColData.strs v) := by
  constructor
  · intro h
    have hm : mapO toNumCell v =
        some (v.map (fun x => (toNumCell x).getD none)) := by
      apply mapO_some_map
      intro x hx
      obtain ⟨b, hb⟩ := Option.isSome_iff_exists.mp (h x hx)
      rw [hb]
      rfl
    rw [convert_to_numerical, hm]
  · rintro ⟨x, hx, hfx⟩
    rw [convert_to_numerical, mapO_none_of_mem toNumCell hx hfx]

/-- Witness for C4: `["1,000", "2,000"]` converts fully to
`[1000.0, 2000.0]`, and one unparseable token leaves the whole column — its
numeric-looking cells included — untouched. -/
theorem C4_witness :
    (∀ x ∈ [some "1,000", some "2,000"], (toNumCell x).isSome = true) ∧
    convert_to_numerical (ColData.strs [some "1,000", some "2,000"]) =
      ColData.nums [some 1000, some 2000] ∧
    (∃ x ∈ [some "1,000", some "oops"], toNumCell x = none) ∧
    convert_to_numerical (ColData.strs [some "1,000", some "oops"]) =
      ColData.strs [some "1,000", some "oops"] :=
  ⟨by decide,
   ((C4_all_or_nothing [some "1,000", some "2,000"]).1 (by decide)).trans (by decide),
   ⟨some "oops", by decide, by decide⟩,
   (C4_all_or_nothing [some "1,000", some "oops"]).2
     ⟨some "oops", by decide, by decide⟩⟩

/-! ## Claim C5 -/

/-- **C5** (as stated, refuted): the code derives the state metric with
Python `str.replace`, which replaces **every** occurrence of `"Plant"`, not
only the first: for `"PlantPlant gen"` the code derives
`"StateState gen"` and fails with `BadMetric`, although the column named by
the claimed first-occurrence replacement `"StatePlant gen"` is present in
the state table. -/
theorem C5_counterexample :
    get_plant_metric_summary_by_state C5plantT C5stateT "PlantPlant gen" =
      .error (.badMetric "The specified state metric 'StateState gen' does not exist.") ∧
    replaceFirstSpec "PlantPlant gen" "Plant" "State" = "StatePlant gen" ∧
    "StatePlant gen" ∈ C5stateT.columns ∧
    stateMetricName "PlantPlant gen" ≠
      replaceFirstSpec "PlantPlant gen" "Plant" "State" := by
  exact ⟨by decide, by decide, by decide, by decide⟩

/-- **C5** (amended): the state metric name is derived by replacing every
occurrence of `"Plant"` with `"State"` (Python `str.replace`; identical to
the first-occurrence reading whenever `"Plant"` occurs at most once), and
`BadMetric` is raised when the derived name is not a column of the state
table. -/
theorem C5_state_metric_derivation (plantT stateT : DF) (pm : String)
    (h1 : pm ∈ plantT.columns) (h2 : stateMetricName pm ∉ stateT.columns) :
    get_plant_metric_summary_by_state plantT stateT pm =
      .error (.badMetric
        s!"The specified state metric '{stateMetricName pm}' does not exist.") := by
  simp only [get_plant_metric_summary_by_state]
  rw [if_neg (not_not_intro h1), if_pos h2]

/-- Witness for C5: the amended derivation rule instantiated at the concrete
tables. -/
theorem C5_witness :
    "PlantPlant gen" ∈ C5plantT.columns ∧
    stateMetricName "PlantPlant gen" ∉ C5stateT.columns ∧
    get_plant_metric_summary_by_state C5plantT C5stateT "PlantPlant gen" =
      .error (.badMetric "The specified state metric 'StateState gen' does not exist.") :=
  ⟨by decide, by decide,
   (C5_state_metric_derivation C5plantT C5stateT "PlantPlant gen"
     (by decide) (by decide)).trans (by decide)⟩

/-! ### Helpers for the top-N queries -/

theorem mapE_ok_of_all {ε α β : Type} (f : α → Except ε β) :
    ∀ (l : List α), (∀ x ∈ l, ∃ y, f x = .ok y) → ∃ L, mapE f l = .ok L := by
  intro l
  induction l with
  | nil => intro _; exact ⟨[], rfl⟩
  | cons a t ih =>
    intro h
    obtain ⟨y, hy⟩ := h a (List.mem_cons_self a t)
    obtain ⟨L, hL⟩ := ih (fun x hx => h x (List.mem_cons_of_mem a hx))
    refine ⟨y :: L, ?_⟩
    rw [mapE, hy, hL]

theorem mem_sortIdxDesc {v : List (Option ℚ)} {n i : ℕ} :
    i ∈ sortIdxDesc v n ↔ i < n := by
  rw [sortIdxDesc, (List.perm_insertionSort _ _).mem_iff, List.mem_range]

theorem length_sortIdxDesc (v : List (Option ℚ)) (n : ℕ) :
    (sortIdxDesc v n).length = n := by
  rw [sortIdxDesc, (List.perm_insertionSort _ _).length_eq, List.length_range]

theorem mem_headInt {α : Type} {k : ℤ} {l : List α} {x : α}
    (h : x ∈ headInt k l) : x ∈ l := by
  rw [headInt] at h
  split at h <;> exact List.mem_of_mem_take h

theorem cellAt_of_strs {t : DF} {c : String} {w : List String} {i : ℕ}
    (hc : t.col? c = some (.strs (w.map some))) (hl : w.length = t.nRows)
    (hi : i < t.nRows) : t.cellAt c i = .str (some (w.getD i "")) := by
  rw [DF.cellAt, hc]
  show Cell.str ((w.map some).getD i none) = _
  rw [List.getD_eq_getElem _ _ (by rw [List.length_map, hl]; exact hi),
    List.getElem_map, List.getD_eq_getElem _ _ (by rw [hl]; exact hi)]

theorem projPlant_ok {t : DF} {nv sv : List String}
    (hname : t.col? "Plant name" = some (.strs (nv.map some)))
    (hlnv : nv.length = t.nRows)
    (hst : t.col? "Plant state abbreviation" = some (.strs (sv.map some)))
    (hlsv : sv.length = t.nRows)
    (metric : String) {i : ℕ} (hi : i < t.nRows) :
    projPlant t metric i =
      .ok ⟨nv.getD i "", sv.getD i "", metric, t.numAt metric i⟩ := by
  rw [projPlant, cellAt_of_strs hname hlnv hi, cellAt_of_strs hst hlsv hi]

theorem getD_map_some {v : List ℚ} {i : ℕ} (hi : i < v.length) :
    (v.map some).getD i none = some (v.getD i 0) := by
  rw [List.getD_eq_getElem _ _ (by simpa using hi), List.getElem_map,
    List.getD_eq_getElem _ _ hi]

theorem numAt_of_nums {t : DF} {metric : String} {v : List ℚ}
    (hm : t.col? metric = some (.nums (v.map some))) (hlv : v.length = t.nRows)
    {i : ℕ} (hi : i < t.nRows) : t.numAt metric i = some (v.getD i 0) := by
  rw [DF.numAt, hm]
  exact getD_map_some (by rw [hlv]; exact hi)

/-! ## Claim C6 -/

/-- **C6**: `get_data_by_state` raises `DataNotFound` exactly when no plant
row's state abbreviation cell equals the requested state string, raises
nothing else, and otherwise returns precisely the matching rows, in original
table order, as full-row projections carrying every plant column. -/
theorem C6_data_by_state (t : DF) (st : String)
    (hcol : "Plant state abbreviation" ∈ t.columns) :
    ((∃ msg, get_data_by_state t st = .error (.dataNotFound msg)) ↔
      ∀ i < t.nRows, t.cellAt "Plant state abbreviation" i ≠ .str (some st)) ∧
    (∀ e, get_data_by_state t st = .error e → ∃ msg, e = .dataNotFound msg) ∧
    (∀ rows, get_data_by_state t st = .ok rows →
      rows = ((List.range t.nRows).filter
        (fun i => t.cellAt "Plant state abbreviation" i == Cell.str (some st))).map t.row ∧
      ∀ r ∈ rows, r.map Prod.fst = t.columns) := by
  have hne : ¬ ("Plant state abbreviation" ∉ t.columns) := not_not_intro hcol
  have hget : get_data_by_state t st =
      (if ((List.range t.nRows).filter
          (fun i => t.cellAt "Plant state abbreviation" i == Cell.str (some st))).isEmpty then
        .error (.dataNotFound s!"No data found for the state '{st}'")
      else
        .ok (((List.range t.nRows).filter
          (fun i => t.cellAt "Plant state abbreviation" i == Cell.str (some st))).map
            t.row)) := by
    rw [get_data_by_state, if_neg hne]
  by_cases hE : ((List.range t.nRows).filter
      (fun i => t.cellAt "Plant state abbreviation" i == Cell.str (some st))).isEmpty = true
  · rw [if_pos hE] at hget
    have hnone : ∀ i < t.nRows, t.cellAt "Plant state abbreviation" i ≠ .str (some st) := by
      intro i hi hEq
      have hmem : i ∈ (List.range t.nRows).filter
          (fun j => t.cellAt "Plant state abbreviation" j == Cell.str (some st)) :=
        List.mem_filter.mpr ⟨List.mem_range.mpr hi, beq_iff_eq.mpr hEq⟩
      rw [List.isEmpty_iff.mp hE] at hmem
      cases hmem
    refine ⟨⟨fun _ => hnone, fun _ => ⟨_, hget⟩⟩, ?_, ?_⟩
    · intro e he
      rw [hget] at he
      exact ⟨_, (Except.error.inj he).symm⟩
    · intro rows hrows
      rw [hget] at hrows
      simp at hrows
  · rw [if_neg hE] at hget
    have hnil : ((List.range t.nRows).filter
        (fun i => t.cellAt "Plant state abbreviation" i == Cell.str (some st))) ≠ [] :=
      fun hn => hE (by rw [hn]; rfl)
    obtain ⟨i, hi⟩ := List.exists_mem_of_ne_nil _ hnil
    have hi' := List.mem_filter.mp hi
    refine ⟨⟨?_, ?_⟩, ?_, ?_⟩
    · rintro ⟨msg, hmsg⟩
      rw [hget] at hmsg
      simp at hmsg
    · intro hall
      exact absurd (beq_iff_eq.mp hi'.2)
        (hall i (List.mem_range.mp hi'.1))
    · intro e he
      rw [hget] at he
      simp at he
    · intro rows hrows
      rw [hget] at hrows
      refine ⟨(Except.ok.inj hrows).symm, ?_⟩
      intro r hr
      rw [← (Except.ok.inj hrows)] at hr
      obtain ⟨j, -, rfl⟩ := List.mem_map.mp hr
      exact DF.map_fst_row t j

/-- Witness for C6: both outcomes instantiated at a concrete table — no
match for `"ZZ"`, and the single `"TX"` row returned in full. -/
theorem C6_witness :
    "Plant state abbreviation" ∈ C6T.columns ∧
    ((∃ msg, get_data_by_state C6T "ZZ" = .error (.dataNotFound msg)) ↔
      ∀ i < C6T.nRows, C6T.cellAt "Plant state abbreviation" i ≠ .str (some "ZZ")) :=
  ⟨by decide, (C6_data_by_state C6T "ZZ" (by decide)).1⟩

/-! ## Claim C7 -/

/-- **C7**: `get_top_n_plants` raises `BadMetric` exactly when the metric is
not a column of the cleaned plant table or is a non-numeric column; the two
cases carry distinct messages naming the metric, and a numeric metric never
raises. -/
theorem C7_top_n_errors (t : DF) (n : ℤ) (metric : String)
    (nv sv : List String)
    (hname : t.col? "Plant name" = some (.strs (nv.map some)))
    (hlnv : nv.length = t.nRows)
    (hst : t.col? "Plant state abbreviation" = some (.strs (sv.map some)))
    (hlsv : sv.length = t.nRows) :
    (metric ∉ t.columns →
      get_top_n_plants t n metric =
        .error (.badMetric s!"The specified metric '{metric}' does not exist.")) ∧
    (metric ∈ t.columns → t.isNumCol metric = false →
      get_top_n_plants t n metric =
        .error (.badMetric (s!"The specified metric '{metric}' is not numerical "
          ++ "and cannot be used for sorting. Please choose a numerical column."))) ∧
    (t.isNumCol metric = true → ∃ l, get_top_n_plants t n metric = .ok l) ∧
    ((∃ msg, get_top_n_plants t n metric = .error (.badMetric msg)) ↔
      (metric ∉ t.columns ∨ t.isNumCol metric = false)) := by
  have habsent : metric ∉ t.columns →
      get_top_n_plants t n metric =
        .error (.badMetric s!"The specified metric '{metric}' does not exist.") := by
    intro h
    rw [get_top_n_plants, if_pos h]
  have hnonnum : metric ∈ t.columns → t.isNumCol metric = false →
      get_top_n_plants t n metric =
        .error (.badMetric (s!"The specified metric '{metric}' is not numerical "
          ++ "and cannot be used for sorting. Please choose a numerical column.")) := by
    intro hmem hnum
    rw [get_top_n_plants, if_neg (not_not_intro hmem)]
    obtain ⟨d, hd⟩ := DF.col?_isSome_of_mem hmem
    rw [hd]
    cases d with
    | nums v =>
      rw [DF.isNumCol, hd] at hnum
      cases hnum
    | strs v => rfl
  have hnum_ok : t.isNumCol metric = true → ∃ l, get_top_n_plants t n metric = .ok l := by
    intro hnum
    rw [DF.isNumCol] at hnum
    cases hd : t.col? metric with
    | none => rw [hd] at hnum; cases hnum
    | some d =>
      cases d with
      | strs v => rw [hd] at hnum; cases hnum
      | nums v =>
        rw [get_top_n_plants,
          if_neg (not_not_intro (DF.mem_columns_of_col? hd)), hd]
        apply mapE_ok_of_all
        intro i hi
        have hilt : i < t.nRows := mem_sortIdxDesc.mp (mem_headInt hi)
        exact ⟨_, projPlant_ok hname hlnv hst hlsv metric hilt⟩
  refine ⟨habsent, hnonnum, hnum_ok, ⟨?_, ?_⟩⟩
  · rintro ⟨msg, hmsg⟩
    by_contra hc
    push_neg at hc
    obtain ⟨hmem, hnum⟩ := hc
    obtain ⟨l, hl⟩ := hnum_ok (by
      cases hn : t.isNumCol metric
      · exact absurd hn hnum
      · rfl)
    rw [hl] at hmsg
    simp at hmsg
  · rintro (h | h)
    · exact ⟨_, habsent h⟩
    · by_cases hmem : metric ∈ t.columns
      · exact ⟨_, hnonnum hmem h⟩
      · exact ⟨_, habsent hmem⟩

/-- Witness for C7: the three behaviours instantiated at a concrete table —
absent metric, non-numeric metric, numeric metric. -/
theorem C7_witness :
    C7T.col? "Plant name" = some (.strs (["A"].map some)) ∧
    C7T.col? "Plant state abbreviation" = some (.strs (["CA"].map some)) ∧
    (get_top_n_plants C7T 1 "nope" =
      .error (.badMetric "The specified metric 'nope' does not exist.")) ∧
    (get_top_n_plants C7T 1 "tag" =
      .error (.badMetric ("The specified metric 'tag' is not numerical "
        ++ "and cannot be used for sorting. Please choose a numerical column."))) ∧
    (∃ l, get_top_n_plants C7T 1 "g" = .ok l) := by
  exact ⟨by decide, by decide,
    ((C7_top_n_errors C7T 1 "nope" ["A"] ["CA"] (by decide) (by decide) (by decide)
        (by decide)).1 (by decide)).trans (by decide),
    ((C7_top_n_errors C7T 1 "tag" ["A"] ["CA"] (by decide) (by decide) (by decide)
        (by decide)).2.1 (by decide) (by decide)).trans (by decide),
    (C7_top_n_errors C7T 1 "g" ["A"] ["CA"] (by decide) (by decide) (by decide)
        (by decide)).2.2.1 (by decide)⟩

/-! ## Claim C10 -/

/-- **C10**: `get_top_n_plants` does not validate `top_number` itself: with
a numeric metric, `top_number = 0` yields the empty list without error, and
`top_number = -k` (`k > 0`) yields the descending-sorted projection with its
last `k` entries dropped, pandas `head(-k)` semantics. -/
theorem C10_no_top_number_validation (t : DF) (metric : String)
    (L : List TopPowerPlant)
    (hfull : get_top_n_plants t (t.nRows : ℤ) metric = .ok L) :
    get_top_n_plants t 0 metric = .ok [] ∧
    ∀ k : ℕ, 0 < k →
      get_top_n_plants t (-(k : ℤ)) metric = .ok (L.take (t.nRows - k)) := by
  rw [get_top_n_plants] at hfull
  by_cases hmem : metric ∉ t.columns
  · rw [if_pos hmem] at hfull
    simp at hfull
  · rw [if_neg hmem] at hfull
    cases hd : t.col? metric with
    | none =>
      obtain ⟨d, hd'⟩ := DF.col?_isSome_of_mem (not_not.mp hmem)
      rw [hd'] at hd
      cases hd
    | some d =>
      cases d with
      | strs v =>
        rw [hd] at hfull
        have hfull2 : (Except.error (ε := PPErr)
            (.badMetric (s!"The specified metric '{metric}' is not numerical "
              ++ "and cannot be used for sorting. Please choose a numerical column."))
            : Except PPErr (List TopPowerPlant)) = .ok L := hfull
        cases hfull2
      | nums v =>
        rw [hd] at hfull
        have hfull2 : mapE (projPlant t metric)
            (headInt (t.nRows : ℤ) (sortIdxDesc v t.nRows)) = .ok L := hfull
        have hlen : (sortIdxDesc v t.nRows).length = t.nRows := length_sortIdxDesc v t.nRows
        have hfull' : mapE (projPlant t metric) (sortIdxDesc v t.nRows) = .ok L := by
          have hh : headInt (t.nRows : ℤ) (sortIdxDesc v t.nRows) =
              sortIdxDesc v t.nRows := by
            rw [headInt, if_pos (by exact_mod_cast Nat.zero_le t.nRows)]
            rw [Int.toNat_natCast]
            exact List.take_of_length_le (le_of_eq hlen)
          rw [hh] at hfull2
          exact hfull2
        constructor
        · rw [get_top_n_plants, if_neg hmem, hd]
          show mapE (projPlant t metric) (headInt (0 : ℤ) (sortIdxDesc v t.nRows)) = .ok []
          have h0 : headInt (0 : ℤ) (sortIdxDesc v t.nRows) = [] := by
            rw [headInt, if_pos le_rfl]
            rfl
          rw [h0]
          rfl
        · intro k hk
          rw [get_top_n_plants, if_neg hmem, hd]
          show mapE (projPlant t metric) (headInt (-(k : ℤ)) (sortIdxDesc v t.nRows)) =
            .ok (L.take (t.nRows - k))
          have hneg : headInt (-(k : ℤ)) (sortIdxDesc v t.nRows) =
              (sortIdxDesc v t.nRows).take (t.nRows - k) := by
            rw [headInt, if_neg (by omega), hlen]
            congr 1
            omega
          rw [hneg]
          exact mapE_ok_take (projPlant t metric) _ L hfull' (t.nRows - k)

/-- Witness for C10: `head(0)` and `head(-1)` behaviour at a concrete
table. -/
theorem C10_witness :
    get_top_n_plants C10T ((C10T.nRows : ℕ) : ℤ) "g" = .ok C10L ∧
    get_top_n_plants C10T 0 "g" = .ok [] ∧
    get_top_n_plants C10T (-((1 : ℕ) : ℤ)) "g" =
      .ok [⟨"B", "CA", "g", some 9⟩, ⟨"C", "TX", "g", some 7⟩] := by
  have h := C10_no_top_number_validation C10T "g" C10L (by decide)
  exact ⟨by decide, h.1, (h.2 1 (by decide)).trans (by decide)⟩

/-! ## Claim C8 -/

/-- **C8** (as stated, at the empty table): a raw table with zero rows cleans
to zero rows, and `0 ≤ 0 - 1` fails over the integers, so the bound
"row count ≤ input row count − 1" does not hold for every raw input table. -/
theorem C8_counterexample :
    clean_data C8badT = .ok C8badU ∧
      ¬ ((C8badU.nRows : ℤ) ≤ (C8badT.nRows : ℤ) - 1) := by
  constructor
  · decide
  · decide

/-- **C8** (amended): for every rectangular raw input table, `clean_data`
preserves the column set exactly, the cleaned row count is at most
`max (input row count − 1) 0` (truncated subtraction; the stated
`input − 1` bound fails only for a zero-row input), and no cell of a
numeric column of the cleaned table is missing. -/
theorem C8_clean_invariants (t u : DF) (hok : t.ok) (h : clean_data t = .ok u) :
    u.columns = t.columns ∧ u.nRows ≤ t.nRows - 1 ∧ u.numFilled = true := by
  rw [clean_data] at h
  cases hc : convert_percentages (remove_metadata_row t) with
  | error e => rw [hc] at h; cases h
  | ok t2 =>
    rw [hc] at h
    cases h
    have hshape := convert_percentages_shape hc
    have ht1ok : (remove_metadata_row t).ok := remove_metadata_row_ok hok
    have ht2cols : t2.columns = (remove_metadata_row t).columns :=
      columns_eq_of_shape hshape
    have ht2n : t2.nRows = (remove_metadata_row t).nRows := nRows_eq_of_shape hshape
    have ht2ok : t2.ok := ok_of_shape hshape ht1ok
    have ht3n : (convert_columns_to_numerical t2).nRows = t2.nRows :=
      DF.nRows_mapCols t2 _ length_convert_to_numerical
    have ht3ok : (convert_columns_to_numerical t2).ok :=
      DF.ok_mapCols length_convert_to_numerical ht2ok
    have ht4n : (fill_missing_values (convert_columns_to_numerical t2)).nRows =
        (convert_columns_to_numerical t2).nRows :=
      DF.nRows_mapCols _ _ ColData.length_fill
    have ht4ok : (fill_missing_values (convert_columns_to_numerical t2)).ok :=
      DF.ok_mapCols ColData.length_fill ht3ok
    refine ⟨?_, ?_, ?_⟩
    · rw [columns_remove_duplicates, columns_fill_missing_values,
        columns_convert_columns_to_numerical, ht2cols, remove_metadata_row_columns]
    · rw [nRows_remove_duplicates]
      have hle : (keepIdx (fill_missing_values (convert_columns_to_numerical t2))).length ≤
          (fill_missing_values (convert_columns_to_numerical t2)).nRows := by
        have := (keepIdx_sublist (fill_missing_values (convert_columns_to_numerical t2))).length_le
        simpa using this
      rw [ht4n, ht3n, ht2n, remove_metadata_row_nRows] at hle
      exact hle
    · rw [DF.numFilled, List.all_eq_true]
      intro c' hc'
      have hc'' : c' ∈ (fill_missing_values (convert_columns_to_numerical t2)).cols.map
          (fun p => (p.1, ColData.select p.2
            (keepIdx (fill_missing_values (convert_columns_to_numerical t2))))) := hc'
      obtain ⟨p, hp, rfl⟩ := List.mem_map.mp hc''
      have hp' : p ∈ (convert_columns_to_numerical t2).cols.map
          (fun q => (q.1, ColData.fill q.2)) := hp
      obtain ⟨q, hq, rfl⟩ := List.mem_map.mp hp'
      apply ColData.numFilled_of_filled
      apply ColData.filled_select (ColData.filled_fill q.2)
      intro i hi
      have hi' : i < (fill_missing_values (convert_columns_to_numerical t2)).nRows :=
        (mem_keepIdx.mp hi).1
      have hql : (ColData.fill q.2).length =
          (fill_missing_values (convert_columns_to_numerical t2)).nRows :=
        ht4ok (q.1, ColData.fill q.2) hp
      rw [hql]
      exact hi'

/-- Witness for C8: a concrete rectangular table satisfying the hypotheses,
with the invariants instantiated there. -/
theorem C8_witness :
    C8okT.ok ∧ clean_data C8okT = .ok C8okU ∧
      (C8okU.columns = C8okT.columns ∧ C8okU.nRows ≤ C8okT.nRows - 1 ∧
        C8okU.numFilled = true) :=
  ⟨by decide, by decide, C8_clean_invariants C8okT C8okU (by decide) (by decide)⟩

/-! ## Claim C9 -/

/-- **C9**: on every rectangular table, running the fill-missing-values step
followed by duplicate removal twice yields the same table as running the two
steps once. -/
theorem C9_fill_dedup_idempotent (t : DF) (hok : t.ok) :
    remove_duplicates (fill_missing_values (remove_duplicates (fill_missing_values t))) =
      remove_duplicates (fill_missing_values t) := by
  set s := fill_missing_values t with hs
  have hsok : s.ok := DF.ok_mapCols ColData.length_fill hok
  set u := remove_duplicates s with hu
  have huok : u.ok := DF.ok_selectRows s (keepIdx s)
  have hnu : u.nRows = (keepIdx s).length := nRows_remove_duplicates s
  have hfill : fill_missing_values u = u := by
    show (⟨u.cols.map (fun c => (c.1, ColData.fill c.2))⟩ : DF) = u
    have hcols : u.cols.map (fun c => (c.1, ColData.fill c.2)) = u.cols := by
      conv_rhs => rw [← List.map_id u.cols]
      apply List.map_congr_left
      intro c hcmem
      have hcm2 : c ∈ s.cols.map (fun p => (p.1, ColData.select p.2 (keepIdx s))) := hcmem
      obtain ⟨p, hp, rfl⟩ := List.mem_map.mp hcm2
      have hpm2 : p ∈ t.cols.map (fun q => (q.1, ColData.fill q.2)) := hp
      obtain ⟨q, hq, rfl⟩ := List.mem_map.mp hpm2
      have hcf : (ColData.select (ColData.fill q.2) (keepIdx s)).filled = true := by
        apply ColData.filled_select (ColData.filled_fill q.2)
        intro i hi
        have hi' : i < s.nRows := (mem_keepIdx.mp hi).1
        have hql : (ColData.fill q.2).length = s.nRows := hsok (q.1, ColData.fill q.2) hp
        rw [hql]
        exact hi'
      rw [ColData.fill_of_filled hcf]
      rfl
    rw [hcols]
  have hdedup : remove_duplicates u = u := by
    rw [remove_duplicates]
    have hk : keepIdx u = List.range u.nRows := by
      simp only [keepIdx]
      apply List.filter_eq_self.mpr
      intro i hi
      rw [List.mem_range] at hi
      apply decide_eq_true
      intro j hj hEq
      have hi' : i < (keepIdx s).length := by rw [← hnu]; exact hi
      have hj' : j < (keepIdx s).length := Nat.lt_trans hj hi'
      have hEq2 : (s.selectRows (keepIdx s)).row j = (s.selectRows (keepIdx s)).row i := hEq
      rw [DF.row_selectRows s (keepIdx s) i hi', DF.row_selectRows s (keepIdx s) j hj'] at hEq2
      have hlt : (keepIdx s).get ⟨j, hj'⟩ < (keepIdx s).get ⟨i, hi'⟩ :=
        List.pairwise_iff_get.mp (keepIdx_pairwise s) ⟨j, hj'⟩ ⟨i, hi'⟩ hj
      have hmem : (keepIdx s).get ⟨i, hi'⟩ ∈ keepIdx s := List.get_mem (keepIdx s) i hi'
      exact (mem_keepIdx.mp hmem).2 _ hlt hEq2
    rw [hk, DF.selectRows_range u huok]
  rw [hfill, hdedup]

/-! ### Helpers for the state summary -/

theorem flatten_map_singleton {α β : Type} (f : α → β) (l : List α) :
    (l.map (fun x => [f x])).flatten = l.map f := by
  induction l with
  | nil => rfl
  | cons a t ih => simp [ih]

theorem filterMap_eq_map_of_some {α β : Type} (h : α → Option β) (f : α → β)
    (l : List α) (hh : ∀ x ∈ l, h x = some (f x)) : l.filterMap h = l.map f := by
  induction l with
  | nil => rfl
  | cons a t ih =>
    rw [List.filterMap_cons, hh a (List.mem_cons_self a t), List.map_cons,
      ih (fun x hx => hh x (List.mem_cons_of_mem a hx))]

theorem filter_range_eq_singleton {p : ℕ → Bool} {n j : ℕ} (hj : j < n)
    (hpj : p j = true) (huniq : ∀ i < n, p i = true → i = j) :
    (List.range n).filter p = [j] := by
  induction n with
  | zero => omega
  | succ m ih =>
    rw [List.range_succ, List.filter_append]
    by_cases hjm : j = m
    · subst hjm
      have h1 : (List.range j).filter p = [] := by
        rw [List.filter_eq_nil_iff]
        intro a ha hpa
        have haj : a < j := List.mem_range.mp ha
        have := huniq a (lt_trans haj (Nat.lt_succ_self j)) hpa
        omega
      rw [h1, List.nil_append, List.filter_cons, if_pos hpj]
      rfl
    · have hjm' : j < m := lt_of_le_of_ne (Nat.lt_succ_iff.mp hj) hjm
      have hpm : p m = false := by
        cases hpm : p m
        · rfl
        · have := huniq m (Nat.lt_succ_self m) hpm
          omega
      rw [ih hjm' (fun i hi hpi => huniq i (lt_trans hi (Nat.lt_succ_self m)) hpi),
        List.filter_cons, if_neg (by rw [hpm]; exact Bool.false_ne_true)]
      rfl

/-- The first matching entry of the state table: its index, its value, and
its uniqueness under a duplicate-free abbreviation column. -/
theorem stateLookup_spec : ∀ (sv : List String) (mv : List ℚ), sv.Nodup →
    sv.length = mv.length → ∀ k ∈ sv,
      ∃ j, j < sv.length ∧ sv.getD j "" = k ∧ stateLookup sv mv k = mv.getD j 0 ∧
        ∀ j' < sv.length, sv.getD j' "" = k → j' = j := by
  intro sv
  induction sv with
  | nil =>
    intro mv _ _ k hk
    cases hk
  | cons s st ih =>
    intro mv hnd hl k hk
    cases mv with
    | nil => cases hl
    | cons q mt =>
      have hnd' := List.nodup_cons.mp hnd
      by_cases hks : k = s
      · subst hks
        refine ⟨0, Nat.succ_pos _, rfl, ?_, ?_⟩
        · rw [stateLookup]
          show ((((k, q) :: st.zip mt).find? (fun p => p.1 == k)).map Prod.snd).getD 0 =
            (q :: mt).getD 0 0
          rw [List.find?_cons_of_pos _ (by simp)]
          rfl
        · intro j' hj' hsv
          cases j' with
          | zero => rfl
          | succ m =>
            have hm : m < st.length := by simpa using hj'
            have hmem : st.getD m "" ∈ st := by
              rw [List.getD_eq_getElem _ _ hm]
              exact List.getElem_mem hm
            have hsv' : st.getD m "" = k := hsv
            rw [hsv'] at hmem
            exact absurd hmem hnd'.1
      · have hkst : k ∈ st := by
          rcases List.mem_cons.mp hk with h | h
          · exact absurd h hks
          · exact h
        obtain ⟨j, hj, hsvj, hsl, huniq⟩ := ih mt hnd'.2 (by simpa using hl) k hkst
        refine ⟨j + 1, by simpa using hj, hsvj, ?_, ?_⟩
        · rw [stateLookup]
          show ((((s, q) :: st.zip mt).find? (fun p => p.1 == k)).map Prod.snd).getD 0 =
            (q :: mt).getD (j + 1) 0
          rw [List.find?_cons_of_neg _ (by simp; exact fun h => hks h.symm)]
          exact hsl
        · intro j' hj' hsv'
          cases j' with
          | zero => exact absurd (hsv' : s = k).symm hks
          | succ m =>
            have := huniq m (by simpa using hj') hsv'
            omega

/-- Witness for C9: the idempotence instantiated at a concrete rectangular
table with a duplicate row and missing cells. -/
theorem C9_witness :
    C9T.ok ∧
      remove_duplicates (fill_missing_values (remove_duplicates (fill_missing_values C9T))) =
        remove_duplicates (fill_missing_values C9T) :=
  ⟨by decide, C9_fill_dedup_idempotent C9T (by decide)⟩

/-! ## Claim C2 -/

/-- Under a duplicate-free state table covering every plant state, plant row
`i` merges to exactly one row, carrying its state's metric value. -/
theorem mergeRow_eq {plantT stateT : DF} {pm sm : String}
    {kv : List String} {qv : List ℚ} {sv : List String} {mv : List ℚ}
    (hk : plantT.col? "Plant state abbreviation" = some (.strs (kv.map some)))
    (hlk : kv.length = plantT.nRows)
    (hq : plantT.col? pm = some (.nums (qv.map some)))
    (hlq : qv.length = plantT.nRows)
    (hs : stateT.col? "State abbreviation" = some (.strs (sv.map some)))
    (hls : sv.length = stateT.nRows)
    (hm : stateT.col? sm = some (.nums (mv.map some)))
    (hlm : mv.length = stateT.nRows)
    (hnd : sv.Nodup)
    (hmatch : ∀ k ∈ kv, k ∈ sv)
    {i : ℕ} (hin : i < plantT.nRows) :
    mergeRow plantT stateT pm sm i =
      [MRow.mk (Cell.str (some (kv.getD i ""))) (some (qv.getD i 0))
        (some (stateLookup sv mv (kv.getD i "")))] := by
  have hkmem : kv.getD i "" ∈ kv := by
    rw [List.getD_eq_getElem _ _ (by rw [hlk]; exact hin)]
    exact List.getElem_mem _
  obtain ⟨j₀, hj₀, hsvj, hlook, huniq⟩ :=
    stateLookup_spec sv mv hnd (by rw [hls, hlm]) _ (hmatch _ hkmem)
  have hkey : plantT.cellAt "Plant state abbreviation" i =
      .str (some (kv.getD i "")) := cellAt_of_strs hk hlk hin
  have hj₀' : j₀ < stateT.nRows := by rw [← hls]; exact hj₀
  have hfilter : (List.range stateT.nRows).filter
      (fun j => stateT.cellAt "State abbreviation" j ==
        plantT.cellAt "Plant state abbreviation" i) = [j₀] := by
    apply filter_range_eq_singleton hj₀'
    · rw [cellAt_of_strs hs hls hj₀', hkey, hsvj]
      exact beq_self_eq_true _
    · intro j' hj'lt hpj'
      rw [cellAt_of_strs hs hls hj'lt, hkey] at hpj'
      have h2 : sv.getD j' "" = kv.getD i "" := by simpa using hpj'
      exact huniq j' (by rw [hls]; exact hj'lt) h2
  rw [mergeRow, hfilter, if_neg (by simp)]
  simp only [List.map_cons, List.map_nil]
  rw [hkey, numAt_of_nums hq hlq hin, numAt_of_nums hm hlm hj₀', hlook]

/-- The closed form of the left merge under the same conditions: one merged
row per plant row, in plant order. -/
theorem mergedRows_eq {plantT stateT : DF} {pm sm : String}
    {kv : List String} {qv : List ℚ} {sv : List String} {mv : List ℚ}
    (hk : plantT.col? "Plant state abbreviation" = some (.strs (kv.map some)))
    (hlk : kv.length = plantT.nRows)
    (hq : plantT.col? pm = some (.nums (qv.map some)))
    (hlq : qv.length = plantT.nRows)
    (hs : stateT.col? "State abbreviation" = some (.strs (sv.map some)))
    (hls : sv.length = stateT.nRows)
    (hm : stateT.col? sm = some (.nums (mv.map some)))
    (hlm : mv.length = stateT.nRows)
    (hnd : sv.Nodup)
    (hmatch : ∀ k ∈ kv, k ∈ sv) :
    mergedRows plantT stateT pm sm =
      (kv.zip qv).map (fun p =>
        MRow.mk (Cell.str (some p.1)) (some p.2) (some (stateLookup sv mv p.1))) := by
  rw [mergedRows]
  have h1 : (List.range plantT.nRows).map (mergeRow plantT stateT pm sm) =
      (List.range plantT.nRows).map (fun i =>
        [MRow.mk (Cell.str (some (kv.getD i ""))) (some (qv.getD i 0))
          (some (stateLookup sv mv (kv.getD i "")))]) :=
    List.map_congr_left (fun i hi =>
      mergeRow_eq hk hlk hq hlq hs hls hm hlm hnd hmatch (List.mem_range.mp hi))
  rw [h1, flatten_map_singleton]
  apply List.ext_getElem
  · rw [List.length_map, List.length_map, List.length_range, List.length_zip,
      hlk, hlq, min_self]
  · intro i h1' h2'
    rw [List.getElem_map, List.getElem_map, List.getElem_range, List.getElem_zip]
    have hiN : i < plantT.nRows := by simpa using h1'
    rw [List.getD_eq_getElem kv "" (by rw [hlk]; exact hiN),
      List.getD_eq_getElem qv 0 (by rw [hlq]; exact hiN)]

/-- **C2**: for a plant table whose state-abbreviation column is a full
string column, a numeric plant metric, and a state table with duplicate-free
abbreviations covering every plant state and nonzero state metric values
(and no column-name collision between the two tables),
`get_plant_metric_summary_by_state` returns one entry per distinct state
abbreviation of the plant table, tagged `metric = plant_metric`, whose
`absolute_value` is the sum of the plant metric over that state's plant rows
and whose `percentage` is the sum over that state's plant rows of
`(plant value / state value) * 100` — the per-plant contribution sum, not a
recomputation from the summed absolute value. -/
theorem C2_summary_by_state (plantT stateT : DF) (pm : String)
    (kv : List String) (qv : List ℚ) (sv : List String) (mv : List ℚ)
    (hk : plantT.col? "Plant state abbreviation" = some (.strs (kv.map some)))
    (hlk : kv.length = plantT.nRows)
    (hq : plantT.col? pm = some (.nums (qv.map some)))
    (hlq : qv.length = plantT.nRows)
    (hs : stateT.col? "State abbreviation" = some (.strs (sv.map some)))
    (hls : sv.length = stateT.nRows)
    (hm : stateT.col? (stateMetricName pm) = some (.nums (mv.map some)))
    (hlm : mv.length = stateT.nRows)
    (hnd : sv.Nodup)
    (hmatch : ∀ k ∈ kv, k ∈ sv)
    (hnz : ∀ x ∈ mv, x ≠ 0)
    (hnc : stateMetricName pm ∉ plantT.columns)
    (hpm1 : pm ≠ "State abbreviation") :
    get_plant_metric_summary_by_state plantT stateT pm =
      .ok ((List.insertionSort (fun a b => strLE a b = true) kv.dedup).map (fun s =>
        StateSummaryItem.mk s pm
          ((((kv.zip qv).filter (fun p => p.1 == s)).map Prod.snd).sum)
          (.finite ((((kv.zip qv).filter (fun p => p.1 == s)).map
            (fun p => p.2 / stateLookup sv mv s * 100)).sum)))) ∧
    (∀ L, get_plant_metric_summary_by_state plantT stateT pm = .ok L →
      (L.map (fun it => it.plant_state_abbreviation)).Nodup ∧
      ∀ s, (s ∈ L.map (fun it => it.plant_state_abbreviation) ↔ s ∈ kv)) := by
  have hpmem : pm ∈ plantT.columns := DF.mem_columns_of_col? hq
  have hsmem : stateMetricName pm ∈ stateT.columns := DF.mem_columns_of_col? hm
  have hkc : "Plant state abbreviation" ∈ plantT.columns := DF.mem_columns_of_col? hk
  have hsc : "State abbreviation" ∈ stateT.columns := DF.mem_columns_of_col? hs
  have hsm_sa : stateMetricName pm ≠ "State abbreviation" := by
    intro h
    rw [h, hs] at hm
    simp at hm
  have hsm_psa : stateMetricName pm ≠ "Plant state abbreviation" := by
    intro h
    rw [h] at hnc
    exact hnc hkc
  have hpm_sm : pm ≠ stateMetricName pm := by
    intro h
    rw [← h] at hnc
    exact hnc hpmem
  have hnum1 : plantT.isNumCol pm = true := by rw [DF.isNumCol, hq]
  have hnum2 : stateT.isNumCol (stateMetricName pm) = true := by rw [DF.isNumCol, hm]
  have hms := mergedRows_eq hk hlk hq hlq hs hls hm hlm hnd hmatch
  have hres : get_plant_metric_summary_by_state plantT stateT pm =
      .ok ((List.insertionSort (fun a b => strLE a b = true) kv.dedup).map (fun s =>
        StateSummaryItem.mk s pm
          ((((kv.zip qv).filter (fun p => p.1 == s)).map Prod.snd).sum)
          (.finite ((((kv.zip qv).filter (fun p => p.1 == s)).map
            (fun p => p.2 / stateLookup sv mv s * 100)).sum)))) := by
    simp only [get_plant_metric_summary_by_state]
    rw [if_neg (not_not_intro hpmem), if_neg (not_not_intro hsmem), hnum1, hnum2,
      if_neg (by simp), if_neg (by simp),
      if_neg (not_or.mpr ⟨not_not_intro hkc, not_not_intro hsc⟩),
      if_neg (by simp only [not_or]; exact ⟨hpm1, hpm_sm, hnc, hsm_psa, hsm_sa⟩),
      hms]
    have hany : ((kv.zip qv).map (fun p =>
        MRow.mk (Cell.str (some p.1)) (some p.2) (some (stateLookup sv mv p.1)))).any
        numKeyMRow = false := by
      rw [List.any_eq_false]
      intro r hr
      obtain ⟨p, -, rfl⟩ := List.mem_map.mp hr
      simp [numKeyMRow]
    rw [if_neg (by rw [hany]; exact Bool.false_ne_true)]
    have hkeys : (((kv.zip qv).map (fun p =>
        MRow.mk (Cell.str (some p.1)) (some p.2) (some (stateLookup sv mv p.1)))).filterMap
        keyOfMRow) = kv := by
      rw [List.filterMap_map]
      have hfm := filterMap_eq_map_of_some
        (keyOfMRow ∘ (fun p : String × ℚ =>
            MRow.mk (Cell.str (some p.1)) (some p.2) (some (stateLookup sv mv p.1))))
        Prod.fst (kv.zip qv) (fun p _ => rfl)
      rw [hfm]
      exact List.map_fst_zip kv qv (by rw [hlq, ← hlk])
    rw [hkeys]
    congr 1
    apply List.map_congr_left
    intro s hsmem'
    have hskv : s ∈ kv := by
      have h1 : s ∈ kv.dedup :=
        ((List.perm_insertionSort _ _).mem_iff).mp hsmem'
      exact List.mem_dedup.mp h1
    have hssv : s ∈ sv := hmatch s hskv
    obtain ⟨j₀, hj₀, hsvj, hlook, -⟩ :=
      stateLookup_spec sv mv hnd (by rw [hls, hlm]) s hssv
    have hnz0 : stateLookup sv mv s ≠ 0 := by
      rw [hlook]
      apply hnz
      rw [List.getD_eq_getElem mv 0 (by rw [hlm, ← hls]; exact hj₀)]
      exact List.getElem_mem _
    have hgrp : ((kv.zip qv).map (fun p =>
        MRow.mk (Cell.str (some p.1)) (some p.2) (some (stateLookup sv mv p.1)))).filter
        (fun r => r.key == Cell.str (some s)) =
        ((kv.zip qv).filter (fun p => p.1 == s)).map (fun p =>
          MRow.mk (Cell.str (some p.1)) (some p.2) (some (stateLookup sv mv p.1))) := by
      rw [List.filter_map]
      congr 1
      apply List.filter_congr
      intro p _
      show (Cell.str (some p.1) == Cell.str (some s)) = (p.1 == s)
      by_cases h : p.1 = s
      · rw [h]
        rw [beq_self_eq_true, beq_self_eq_true]
      · rw [beq_eq_false_iff_ne.mpr (by simpa using h), beq_eq_false_iff_ne.mpr h]
    rw [hgrp]
    have habs : (((kv.zip qv).filter (fun p => p.1 == s)).map (fun p =>
        MRow.mk (Cell.str (some p.1)) (some p.2) (some (stateLookup sv mv p.1)))).filterMap
        (fun r => r.pval) =
        ((kv.zip qv).filter (fun p => p.1 == s)).map Prod.snd := by
      rw [List.filterMap_map]
      exact filterMap_eq_map_of_some _ _ _ (fun p _ => rfl)
    have hpct : (((kv.zip qv).filter (fun p => p.1 == s)).map (fun p =>
        MRow.mk (Cell.str (some p.1)) (some p.2) (some (stateLookup sv mv p.1)))).map
        (fun r => pmul100 (pdiv r.pval r.sval)) =
        (((kv.zip qv).filter (fun p => p.1 == s)).map
          (fun p => p.2 / stateLookup sv mv s * 100)).map PFloat.finite := by
      rw [List.map_map, List.map_map]
      apply List.map_congr_left
      intro p hp
      have hps : p.1 = s := by
        have h2 := (List.mem_filter.mp hp).2
        simpa using h2
      show pmul100 (pdiv (some p.2) (some (stateLookup sv mv p.1))) =
        PFloat.finite (p.2 / stateLookup sv mv s * 100)
      rw [hps]
      show pmul100 (if stateLookup sv mv s = 0 then
          (if 0 < p.2 then PFloat.inf else if p.2 < 0 then PFloat.neginf else PFloat.nan)
        else PFloat.finite (p.2 / stateLookup sv mv s)) = _
      rw [if_neg hnz0]
      rfl
    rw [habs, hpct, psum_map_finite]
  refine ⟨hres, ?_⟩
  intro L hL
  rw [hres] at hL
  have hL2 := Except.ok.inj hL
  subst hL2
  have hmapkeys : ((List.insertionSort (fun a b => strLE a b = true) kv.dedup).map
      (fun s => StateSummaryItem.mk s pm
        ((((kv.zip qv).filter (fun p => p.1 == s)).map Prod.snd).sum)
        (.finite ((((kv.zip qv).filter (fun p => p.1 == s)).map
          (fun p => p.2 / stateLookup sv mv s * 100)).sum)))).map
      (fun it => it.plant_state_abbreviation) =
      List.insertionSort (fun a b => strLE a b = true) kv.dedup := by
    rw [List.map_map]
    exact List.map_id _
  rw [hmapkeys]
  constructor
  · exact (List.nodup_dedup kv).perm (List.perm_insertionSort _ _).symm
  · intro s
    rw [(List.perm_insertionSort _ _).mem_iff, List.mem_dedup]

/-- Witness for C2: two `CA` plants (`100`, `300`) against a `CA` total of
`1000` contribute `10% + 30% = 40%` — a per-plant contribution sum. -/
theorem C2_witness :
    (C2plantT.col? "Plant state abbreviation" =
      some (.strs (["CA", "TX", "CA"].map some))) ∧
    (C2plantT.col? "Plant gen" = some (.nums ([(100 : ℚ), 40, 300].map some))) ∧
    (C2stateT.col? "State abbreviation" = some (.strs (["CA", "TX"].map some))) ∧
    (C2stateT.col? (stateMetricName "Plant gen") =
      some (.nums ([(1000 : ℚ), 200].map some))) ∧
    get_plant_metric_summary_by_state C2plantT C2stateT "Plant gen" =
      .ok [⟨"CA", "Plant gen", 400, .finite 40⟩,
           ⟨"TX", "Plant gen", 40, .finite 20⟩] := by
  have h := (C2_summary_by_state C2plantT C2stateT "Plant gen"
    ["CA", "TX", "CA"] [100, 40, 300] ["CA", "TX"] [1000, 200]
    (by decide) (by decide) (by decide) (by decide) (by decide) (by decide)
    (by decide) (by decide) (by decide) (by decide) (by decide) (by decide)
    (by decide)).1
  exact ⟨by decide, by decide, by decide, by decide, h.trans (by decide)⟩

end PowerPlants
